import Mathlib

/-!
# pricer: a verification development

A shallow embedding of `main.go` (package `main` of `dgnorton/pricer`) and
theorems about it.

Conventions of the embedding:

* a Go `string` is a `List Char` (`GoString`), a slice is a `List`;
* Go's `int` has 64 bits: a value of type `int` is an `Int` between `-2^63`
  and `2^63 - 1`, and `+` and `*` on `int` are followed by `wrap64`, the
  reduction into that range;
* a pointer into `item.VendorItems` is the pair of the position and the record
  found there (the records are not written to while the selection runs);
* a run-time panic (index out of range) is an explicit outcome;
* the page parser (`soup`) and the browser (`chromedp`) are outside the
  repository: what they return is a parameter;
* a channel is the list of the values sent on it, in the order sent, and the
  map `jobsInProgress` is a list of entries keyed by the address of the job.
-/

namespace Pricer

/-- A Go `string`, as its sequence of characters. -/
abbrev GoString := List Char

/-! ## Data model (`main.go`, lines 20-54) -/

/-- The Go struct `VendorItem`; `Price` and `Shipping` are USD cents. -/
structure VendorItem where
  VendorName : GoString
  URL : GoString
  Price : Int
  Shipping : Int
  deriving DecidableEq, Repr

/-- The Go function `NewVendorItem`: only the name and the URL are set, the
two amounts keep Go's zero value. -/
def NewVendorItem (vendorName url : GoString) : VendorItem :=
  { VendorName := vendorName, URL := url, Price := 0, Shipping := 0 }

/-- The value of Go's `int` that an integer wraps around to: the one congruent
to it modulo `2^64` between `-2^63` and `2^63 - 1`. -/
def wrap64 (x : Int) : Int :=
  (x + 9223372036854775808) % 18446744073709551616 - 9223372036854775808

/-- The Go method `(*VendorItem).TotalCost`; the addition is the one of `int`. -/
def VendorItem.TotalCost (vi : VendorItem) : Int :=
  let totalCost := vi.Price
  if vi.Shipping > -1 then wrap64 (totalCost + vi.Shipping) else totalCost

/-- The Go struct `Item`. -/
structure Item where
  Description : GoString
  Quantity : Int
  VendorItems : List VendorItem
  deriving DecidableEq, Repr

/-- The Go function `NewItem`. -/
def NewItem (desc : GoString) (qty : Int) : Item :=
  { Description := desc, Quantity := qty, VendorItems := [] }

/-! ## Cost selector (`ItemsByLowestCostVendor`, lines 345-366) -/

/-- The test of line 352, on the total `viTotal` of the candidate and the
total `lowTotal` of the current `lowestCostItem`. -/
def replaces (viTotal lowTotal : Int) : Bool :=
  (decide (viTotal > -1) && decide (viTotal < lowTotal)) ||
    (decide (lowTotal = -1) && decide (viTotal > -1))

/-- One pass of the inner loop body (lines 351-354). The variable
`lowestCostItem` is a pointer into the slice: its position and the record. -/
def selectStep (lowestCostItem vi : Nat × VendorItem) : Nat × VendorItem :=
  let viTotal := vi.2.TotalCost
  if replaces viTotal lowestCostItem.2.TotalCost then vi else lowestCostItem

/-- Lines 349-355: `lowestCostItem := item.VendorItems[0]`, then the loop over
all of `item.VendorItems`. `none` is the index-out-of-range panic of line 349
on an item without vendor records. -/
def lowestCostItem (vis : List VendorItem) : Option (Nat × VendorItem) :=
  match vis with
  | [] => none
  | v0 :: _ => some (vis.enum.foldl selectStep (0, v0))

/-- The outer loop of `ItemsByLowestCostVendor`, `itemsByCost` being the slice
built so far. -/
def ItemsByLowestCostVendor.loop (itemsByCost : List Item) : List Item → Option (List Item)
  | [] => some itemsByCost
  | item :: rest =>
    match lowestCostItem item.VendorItems with
    | none => none
    | some low =>
      let newItem := { NewItem item.Description item.Quantity with VendorItems := [low.2] }
      ItemsByLowestCostVendor.loop (itemsByCost ++ [newItem]) rest

/-- The Go function `ItemsByLowestCostVendor`; `none` is a panic. -/
def ItemsByLowestCostVendor (items : List Item) : Option (List Item) :=
  ItemsByLowestCostVendor.loop [] items

/-- The data-model invariant of an amount, a value of Go's `int`: the sentinel
`-1`, or non-negative and at most `2^63 - 1`. -/
def ValidAmount (a : Int) : Prop := a = -1 ∨ (0 ≤ a ∧ a ≤ 9223372036854775807)

/-- The addition of `TotalCost` does not overflow on the record: price plus
shipping is at most `2^63 - 1`. -/
def VendorItem.Fits (vi : VendorItem) : Prop :=
  vi.Price + vi.Shipping ≤ 9223372036854775807

instance (vi : VendorItem) : Decidable vi.Fits := by unfold VendorItem.Fits; infer_instance

instance (a : Int) : Decidable (ValidAmount a) := by unfold ValidAmount; infer_instance

/-- The data-model invariant of a vendor record. -/
def VendorItem.Valid (vi : VendorItem) : Prop :=
  ValidAmount vi.Price ∧ ValidAmount vi.Shipping

instance (vi : VendorItem) : Decidable vi.Valid := by unfold VendorItem.Valid; infer_instance

/-- A vendor record with the given amounts (name and URL empty). -/
def priced (price shipping : Int) : VendorItem :=
  { VendorName := [], URL := [], Price := price, Shipping := shipping }

/-- The state `r` of the selection loop after the records `l` were visited:
`r` points into `l`, an unresolved `r` is still the first record, and `r` is
the first among the records of least resolved total. -/
def Best (l : List VendorItem) (r : Nat × VendorItem) : Prop :=
  l[r.1]? = some r.2 ∧ (r.2.TotalCost = -1 → r.1 = 0) ∧
  ∀ j x, l[j]? = some x → x.TotalCost > -1 →
    r.2.TotalCost > -1 ∧
      (r.2.TotalCost < x.TotalCost ∨ (r.2.TotalCost = x.TotalCost ∧ r.1 ≤ j))

/-- What `ItemsByLowestCostVendor` does with the `i`-th input item `item`: the
call returns, the loop of lines 349-355 ends on the record `chosen` at
position `pos` of `item.VendorItems`, and the `i`-th output item carries the
description and quantity of `item` and the single record `chosen`. -/
def Selects (items : List Item) (i : Nat) (item : Item) (pos : Nat) (chosen : VendorItem) : Prop :=
  ∃ out, ItemsByLowestCostVendor items = some out ∧
    lowestCostItem item.VendorItems = some (pos, chosen) ∧
    out[i]? = some { Description := item.Description, Quantity := item.Quantity,
                     VendorItems := [chosen] }

/-! ## Catalog loader (`LoadItems`, lines 56-103)

The standard-library functions `LoadItems` calls are modelled after their Go
sources: `unicode.IsSpace`, `strings.TrimSpace`, `strings.Split` with the
one-character separator the program uses, `bufio.Reader.ReadString` and
`strconv.ParseInt` in base 10 with 64 bits. -/

/-- Go's `unicode.IsSpace`. -/
def isSpace (c : Char) : Bool :=
  let n := c.toNat
  (decide (9 ≤ n) && decide (n ≤ 13)) || n == 0x20 || n == 0x85 || n == 0xA0 ||
    n == 0x1680 || (decide (0x2000 ≤ n) && decide (n ≤ 0x200a)) || n == 0x2028 ||
    n == 0x2029 || n == 0x202f || n == 0x205f || n == 0x3000

/-- Go's `strings.TrimSpace`. -/
def TrimSpace (s : GoString) : GoString :=
  ((s.dropWhile isSpace).reverse.dropWhile isSpace).reverse

/-- Go's `strings.Split(s, sep)` for a separator of one character. -/
def Split (sep : Char) : GoString → List GoString
  | [] => [[]]
  | c :: cs =>
    if c = sep then [] :: Split sep cs
    else
      match Split sep cs with
      | [] => [[c]]
      | field :: fields => (c :: field) :: fields

/-- The successive results of `br.ReadString('\n')` on a reader holding
`data`: every line that ends in a newline, the newline included. What follows
the last newline is returned by `ReadString` together with an error and is
dropped by `LoadItems` (lines 65-70). -/
def readLines : GoString → List GoString
  | [] => []
  | c :: cs =>
    if c = '\n' then ['\n'] :: readLines cs
    else
      match readLines cs with
      | [] => []
      | line :: lines => (c :: line) :: lines

/-- The cause of a `*strconv.NumError`: `strconv.ErrSyntax` or
`strconv.ErrRange`. -/
inductive NumError where
  | malformed
  | outOfRange
  deriving DecidableEq, Repr

/-- The digit loop of `strconv.ParseUint(s, 10, 64)`, `n` being the value read
so far. -/
def ParseUint.loop (n : Nat) : GoString → Except NumError Nat
  | [] => .ok n
  | c :: cs =>
    if '0' ≤ c ∧ c ≤ '9' then
      let d := c.toNat - '0'.toNat
      if n ≥ (2 ^ 64 - 1) / 10 + 1 then .error .outOfRange
      else if n * 10 + d > 2 ^ 64 - 1 then .error .outOfRange
      else ParseUint.loop (n * 10 + d) cs
    else .error .malformed

/-- Go's `strconv.ParseUint(s, 10, 64)`. -/
def ParseUint (s : GoString) : Except NumError Nat :=
  if s = [] then .error .malformed else ParseUint.loop 0 s

/-- Go's `strconv.ParseInt(s, 10, 64)`. -/
def ParseInt (s : GoString) : Except NumError Int :=
  match s with
  | [] => .error .malformed
  | c :: cs =>
    let neg := c = '-'
    let digits := if c = '+' ∨ c = '-' then cs else s
    match ParseUint digits with
    | .error e => .error e
    | .ok un =>
      if ¬ neg ∧ un ≥ 2 ^ 63 then .error .outOfRange
      else if neg ∧ un > 2 ^ 63 then .error .outOfRange
      else .ok (if neg then -(un : Int) else (un : Int))

/-- The `io.Reader` handed to `LoadItems`: the characters it delivers and the
condition that ends the stream, `none` for `io.EOF`, `some e` for another
read error. -/
structure Reader where
  data : GoString
  err : Option String

/-- An error returned by `LoadItems`. -/
inductive LoadError where
  /-- Line 75: `fmt.Errorf` with the two `%d` verbs filled in. -/
  | errorf (text : String)
  /-- Line 89: `error [line %d]: cannot parse quantity: %s`. -/
  | quantity (lineNum : Nat) (cause : NumError)
  /-- Line 69: the reader's own error. -/
  | read (text : String)
  deriving DecidableEq, Repr

/-- The text of the error of line 75. -/
def columnsError (lineNum found : Nat) : String :=
  "error [line " ++ toString lineNum ++ "]: need at least 3 columns, only found " ++
    toString found

/-- How a call of `LoadItems` ends: it returns `items` and an error or `nil`,
or it panics on the index expression `colNames[i+2]` of line 97. -/
inductive LoadResult where
  | ret (items : List Item) (err : Option LoadError)
  | panic
  deriving DecidableEq, Repr

/-- Lines 96-99: the loop over `vals[2:]`, `i` being the index reached and
`vendorItems` the slice `item.VendorItems` built so far. `none` is the
index-out-of-range panic of `colNames[i+2]`. -/
def LoadItems.vendors (colNames : List GoString) :
    Nat → List GoString → List VendorItem → Option (List VendorItem)
  | _, [], vendorItems => some vendorItems
  | i, url :: urls, vendorItems =>
    match colNames[i + 2]? with
    | none => none
    | some colName =>
      LoadItems.vendors colNames (i + 1) urls
        (vendorItems ++ [NewVendorItem (TrimSpace colName) (TrimSpace url)])

/-- The loop of lines 62-102 over the lines `ReadString` delivers; `readErr`
is what ends the stream. The conversion `int(qty)` of line 93 is the identity,
`int` having 64 bits. -/
def LoadItems.loop (readErr : Option String) :
    Nat → List GoString → List Item → List GoString → LoadResult
  | _, _, items, [] => .ret items (readErr.map LoadError.read)
  | lineNum, colNames, items, line :: lines =>
    let vals := Split '\t' line
    if vals.length < 3 then
      .ret items (some (.errorf (columnsError lineNum vals.length)))
    else if lineNum = 1 then
      LoadItems.loop readErr (lineNum + 1) (colNames ++ vals) items lines
    else
      let desc := TrimSpace (vals.getD 0 [])
      match ParseInt (vals.getD 1 []) with
      | .error e => .ret items (some (.quantity lineNum e))
      | .ok qty =>
        match LoadItems.vendors colNames 0 (vals.drop 2) (NewItem desc qty).VendorItems with
        | none => .panic
        | some vendorItems =>
          LoadItems.loop readErr (lineNum + 1) colNames
            (items ++ [{ NewItem desc qty with VendorItems := vendorItems }]) lines

/-- The Go function `LoadItems`. -/
def LoadItems (r : Reader) : LoadResult :=
  LoadItems.loop r.err 1 [] [] (readLines r.data)

/-- The text made of the lines `bodies`, each followed by a newline. -/
def joinLines : List GoString → GoString
  | [] => []
  | body :: bodies => body ++ '\n' :: joinLines bodies

/-- The item the catalog format prescribes for a data row, `colNames` being
the fields of the header line and `row` the line read: the row has `m ≥ 3`
tab-separated fields, the description is field 0 trimmed, the quantity is the
base-10 integer of field 1, and there are exactly `m - 2 ≥ 1` vendor records,
the `j`-th named after header field `j + 2` trimmed, with URL the row's field
`j + 2` trimmed. -/
def RowSpec (colNames : List GoString) (row : GoString) (item : Item) : Prop :=
  let vals := Split '\t' row
  ∃ field0 field1, vals[0]? = some field0 ∧ vals[1]? = some field1 ∧
    item.Description = TrimSpace field0 ∧
    ParseInt field1 = .ok item.Quantity ∧
    item.VendorItems.length = vals.length - 2 ∧ 1 ≤ vals.length - 2 ∧
    ∀ j, j < vals.length - 2 →
      ∃ vi colName url, item.VendorItems[j]? = some vi ∧ colNames[j + 2]? = some colName ∧
        vals[j + 2]? = some url ∧
        vi.VendorName = TrimSpace colName ∧ vi.URL = TrimSpace url

/-! ## Price extraction (`GetBanggoodPriceAndShipping`, lines 188-230)

The two element texts the function reads from the parsed page are parameters:
`soup.HTMLParse`, `Find` and `Text` belong to a library outside the
repository.

A `float64` is IEEE-754 binary64. Every finite non-negative binary64 value is
a whole multiple of `2^-1074`, and it is represented by that multiple, a
natural number. `strconv.ParseFloat` returns the binary64 value nearest to the
decimal numeral, and `*` the one nearest to the exact product, ties going to
the even significand in both. -/

/-- The number of low bits a natural number `x` has beyond 53, that is, how
often `x` is halved until it is below `2^53`; `fuel` bounds the count. -/
def excessBits : Nat → Nat → Nat
  | 0, _ => 0
  | fuel + 1, x => if x < 2 ^ 53 then 0 else excessBits fuel (x / 2) + 1

/-- The binary64 value nearest to `num / den` (ties to even), with `num / den`
and the result counted in units of `2^-1074`. The significand has 53 bits: the
result is a multiple of `2^shift`, `shift` being `0` in the subnormal range.
The exponent is not bounded here. -/
def roundBinary64 (num den : Nat) : Nat :=
  let shift := excessBits (num / den) (num / den)
  let ulp := den * 2 ^ shift
  let q := num / ulp
  let r := num % ulp
  let q' := if 2 * r > ulp ∨ (2 * r = ulp ∧ q % 2 = 1) then q + 1 else q
  q' * 2 ^ shift

/-- The scan of an unsigned decimal numeral without exponent: digits with at
most one point and at least one digit. The result `(mant, frac)` stands for
`mant / 10 ^ frac`. -/
def readDecimal.loop : Nat → Nat → Bool → Bool → GoString → Option (Nat × Nat)
  | mant, frac, _, sawDigits, [] => if sawDigits then some (mant, frac) else none
  | mant, frac, sawDot, sawDigits, c :: cs =>
    if '0' ≤ c ∧ c ≤ '9' then
      readDecimal.loop (mant * 10 + (c.toNat - '0'.toNat)) (if sawDot then frac + 1 else frac)
        sawDot true cs
    else if c = '.' ∧ sawDot = false then readDecimal.loop mant frac true sawDigits cs
    else none

/-- The characters `strconv.ParseFloat` can consume: the digits, the signs,
the point, the underscore, and the letters of a hexadecimal numeral, of an
exponent and of `infinity` and `nan`, in either case. A text with any other
character is not a numeral. -/
def floatChar (c : Char) : Bool :=
  (decide ('0' ≤ c) && decide (c ≤ '9')) || c == '+' || c == '-' || c == '.' || c == '_' ||
    "abcdefinptxy".toList.contains c.toLower

/-- Go's `strconv.ParseFloat(s, 64)`; a value is in units of `2^-1074`.

* The empty text and a text with a character that no numeral contains are
  `strconv.ErrSyntax`.
* A text of digits and points is an unsigned decimal numeral without exponent
  when it has at least one digit and at most one point, and
  `strconv.ErrSyntax` otherwise; a numeral that rounds to `2^1024` or more is
  `strconv.ErrRange`.
* The outer `none` stands for what is left, the texts with a sign, an
  exponent, an underscore or a letter (hexadecimal numerals, `Inf`, `NaN` and
  malformed texts made of these characters), which the model does not
  cover. -/
def ParseFloat (s : GoString) : Option (Except NumError Nat) :=
  if s = [] then some (.error .malformed)
  else if s.any (fun c => !floatChar c) then some (.error .malformed)
  else if s.all (fun c => (decide ('0' ≤ c) && decide (c ≤ '9')) || c == '.') then
    match readDecimal.loop 0 0 false false s with
    | none => some (.error .malformed)
    | some (mant, frac) =>
      let f := roundBinary64 (mant * 2 ^ 1074) (10 ^ frac)
      if f ≥ 2 ^ (1024 + 1074) then some (.error .outOfRange) else some (.ok f)
  else none

/-- The Go expression `int(f * 100)` on a non-negative `float64` `f` (in units
of `2^-1074`): the product rounded to binary64, then truncated. `none` where
the product does not fit in an `int`; Go leaves that conversion to the
implementation. -/
def toCents (f : Nat) : Option Int :=
  let product := roundBinary64 (f * 100) 1
  let truncated : Nat := product / 2 ^ 1074
  if truncated < 2 ^ 63 then some (truncated : Int) else none

/-- Go's `strings.TrimPrefix`. -/
def TrimPrefix (s pre : GoString) : GoString :=
  if pre.isPrefixOf s then s.drop pre.length else s

/-- An error returned by `GetBanggoodPriceAndShipping`. -/
inductive ExtractError where
  /-- Line 194: no `span` of class `main-price`. -/
  | noMainPrice
  /-- Line 199: `price element was an empty string`. -/
  | emptyPrice
  /-- Line 201: `found price of US$00.00 - may not have waited long enough ...`. -/
  | zeroPrice
  /-- Line 208: `parsing %s: %s` on the text handed to `ParseFloat`. -/
  | parsePrice (priceStr : GoString) (cause : NumError)
  /-- Line 225: the error of `ParseFloat` on the shipping text. -/
  | parseShipping (cause : NumError)
  deriving DecidableEq, Repr

/-- The three results of `GetBanggoodPriceAndShipping`. -/
structure Extracted where
  price : Int
  shipping : Int
  err : Option ExtractError
  deriving DecidableEq, Repr

/-- Lines 212-229, the shipping half of `GetBanggoodPriceAndShipping`, once
`price` is known. -/
def GetBanggoodPriceAndShipping.shipping (price : Int) (shippingEm : Option GoString) :
    Option Extracted :=
  let shippingStr :=
    match shippingEm with
    | none => "0.00".toList
    | some txt => if txt ≠ [] then TrimPrefix txt "US$".toList else "0.00".toList
  match ParseFloat shippingStr with
  | none => none
  | some (.error e) => some ⟨-1, -1, some (.parseShipping e)⟩
  | some (.ok shippingf64) =>
    match toCents shippingf64 with
    | none => none
    | some shipping => some ⟨price, shipping, none⟩

/-- The Go function `GetBanggoodPriceAndShipping`. `mainPrice` is the text of
the first `span` of class `main-price` and `shippingEm` the text of the first
`em` of class `shipping-price-em`, each `none` when the page has no such
element. The function always returns; the result here is `none` where the
model of `float64` does not say what it returns (see `ParseFloat` and
`toCents`). -/
def GetBanggoodPriceAndShipping (mainPrice shippingEm : Option GoString) : Option Extracted :=
  match mainPrice with
  | none => some ⟨-1, -1, some .noMainPrice⟩
  | some priceStr =>
    if priceStr = [] then some ⟨-1, -1, some .emptyPrice⟩
    else if priceStr = "US$00.00".toList then some ⟨-1, -1, some .zeroPrice⟩
    else
      let priceStr := TrimPrefix priceStr "US$".toList
      match ParseFloat priceStr with
      | none => none
      | some (.error e) => some ⟨-1, -1, some (.parsePrice priceStr e)⟩
      | some (.ok pricef64) =>
        match toCents pricef64 with
        | none => none
        | some price => GetBanggoodPriceAndShipping.shipping price shippingEm


/-- The text of a `*strconv.NumError` of `ParseFloat`. `quoted` stands for
`strconv.Quote` of the numeral, which is not modelled. -/
def NumError.text (quoted : String) (cause : NumError) : String :=
  "strconv.ParseFloat: parsing " ++ quoted ++ ": " ++
    (match cause with
     | .malformed => "invalid syntax"
     | .outOfRange => "value out of range")

/-- The text of an error of `GetBanggoodPriceAndShipping` (lines 194, 199,
201, 208 and 225). -/
def ExtractError.text (quoted : String) : ExtractError → String
  | .noMainPrice => "couldn't find <span class=\"main-price\""
  | .emptyPrice => "price element was an empty string"
  | .zeroPrice =>
    "found price of US$00.00 - may not have waited long enough for the price to update " ++
      "in headless Chrome"
  | .parsePrice priceStr cause =>
    "parsing " ++ String.mk priceStr ++ ": " ++ NumError.text quoted cause
  | .parseShipping cause => NumError.text quoted cause

/-- Equality of the results of the standard library's parsers is decidable. -/
instance exceptDecEq {ε α : Type} [DecidableEq ε] [DecidableEq α] :
    DecidableEq (Except ε α)
  | .ok a, .ok b => if h : a = b then isTrue (by rw [h]) else isFalse (fun h' => h (by cases h'; rfl))
  | .error a, .error b =>
    if h : a = b then isTrue (by rw [h]) else isFalse (fun h' => h (by cases h'; rfl))
  | .ok _, .error _ => isFalse (fun h => by cases h)
  | .error _, .ok _ => isFalse (fun h => by cases h)

attribute [irreducible] ParseFloat toCents

/-! ## Vendor detection (`GetPriceAndShipping`, lines 174-186) -/

/-- Go's `strings.Contains`. -/
def Contains (s substr : GoString) : Bool :=
  match s with
  | [] => substr.isEmpty
  | c :: cs => substr.isPrefixOf (c :: cs) || Contains cs substr

/-- An error returned by `GetPriceAndShipping`. -/
inductive PriceError where
  /-- An error handed on from `GetBanggoodPriceAndShipping`. -/
  | extract (e : ExtractError)
  /-- Line 185: `unsupported vendor: %s`; `url` is the URL the function was
  called with, the text shows it in lower case (line 177). -/
  | unsupportedVendor (url : GoString)
  deriving DecidableEq, Repr

/-- The three results of `GetPriceAndShipping`. -/
structure PriceAndShipping where
  price : Int
  shipping : Int
  err : Option PriceError
  deriving DecidableEq, Repr

/-- The Go function `GetAliExpressPriceAndShipping`. -/
def GetAliExpressPriceAndShipping (_html : GoString) : PriceAndShipping :=
  ⟨-1, -1, none⟩

/-- What the page-parsing library finds in a markup: the text of the first
`span` of class `main-price` and of the first `em` of class
`shipping-price-em`, `none` for an element that is not there. -/
structure PageElems where
  mainPrice : Option GoString
  shippingEm : Option GoString

/-- The Go function `GetPriceAndShipping`. The page-parsing library is the
parameter `soup`; the result is `none` where `GetBanggoodPriceAndShipping` is
outside the model of `float64`. -/
def GetPriceAndShipping (soup : GoString → PageElems) (url html : GoString) :
    Option PriceAndShipping :=
  if Contains html "https://www.banggood.com".toList then
    (GetBanggoodPriceAndShipping (soup html).mainPrice (soup html).shippingEm).map
      fun r => ⟨r.price, r.shipping, r.err.map PriceError.extract⟩
  else if Contains html "https://www.aliexpress.com".toList then
    some (GetAliExpressPriceAndShipping html)
  else some ⟨-1, -1, some (.unsupportedVendor url)⟩

/-! ## Fetch worker (`chromeBrowser`, lines 246-278) -/

/-- The Go struct `BrowserJob`, together with the address the pointers to it
hold: `jobsInProgress` is keyed by `*BrowserJob`. -/
structure BrowserJob where
  addr : Nat
  URL : GoString
  deriving DecidableEq, Repr

/-- The Go struct `BrowserJobResult`; `Err` is `none` for `nil`. -/
structure BrowserJobResult where
  Job : BrowserJob
  HTML : GoString
  Err : Option String
  deriving DecidableEq, Repr

/-- What the call of `chromedp.Run` (lines 260-265) leaves behind: the content
of the variable `html` and the error returned, `none` for `nil`. -/
structure RunOutcome where
  html : GoString
  err : Option String

/-- One pass of the loop body of the worker on a job that is not `nil` (lines
258-275): the values sent on `results`, in the order they are sent. -/
def chromeBrowser.body (job : BrowserJob) (run : RunOutcome) : List BrowserJobResult :=
  let onError : List BrowserJobResult :=
    match run.err with
    | some err => [{ Job := job, HTML := [], Err := some err }]
    | none => []
  onError ++ [{ Job := job, HTML := run.html, Err := none }]

/-- The loop of the worker over the jobs it receives (lines 253-276), `none`
being a `nil` job; `run` is the outcome of `chromedp.Run` for each job. -/
def chromeBrowser (run : BrowserJob → RunOutcome) : List (Option BrowserJob) →
    List BrowserJobResult
  | [] => []
  | none :: jobs => chromeBrowser run jobs
  | some job :: jobs => chromeBrowser.body job (run job) ++ chromeBrowser run jobs

/-! ## Job dispatcher and result correlator (`LookupVendorPrices`, lines 105-172)

The dispatcher (lines 124-141) and the loop over `results` (lines 144-169) run
side by side; every access to `jobsInProgress` is under the mutex. A run is
the sequence of these accesses in the order they take place: the insertions
of the dispatcher and the passes of the loop body. -/

/-- The state the loop over `results` works on: the table `jobsInProgress`
from job pointers to `*VendorItem`, the vendor records of the catalog (a
`*VendorItem` is a position in `vendorItems`), and the record of the writes of
lines 167-168, the position written at each. -/
structure Correlator where
  jobsInProgress : List (Nat × Nat)
  vendorItems : List VendorItem
  written : List Nat
  deriving DecidableEq, Repr

/-- Lines 167-168: `mi.Price = price; mi.Shipping = shipping`. -/
def setAmounts (vendorItems : List VendorItem) (mi : Nat) (price shipping : Int) :
    List VendorItem :=
  match vendorItems[mi]? with
  | none => vendorItems
  | some v => vendorItems.set mi { v with Price := price, Shipping := shipping }

/-- Line 129 of the dispatcher: `jobsInProgress[job] = mi`. -/
def Correlator.insert (st : Correlator) (job : BrowserJob) (mi : Nat) : Correlator :=
  { st with
    jobsInProgress :=
      (job.addr, mi) :: st.jobsInProgress.filter (fun entry => entry.1 != job.addr) }

/-- One pass of the loop body of lines 144-169 on `result`. The lines written
to standard error are not part of the state. `GetPriceAndShipping` always
returns; where the model of `float64` does not say what it returns, the result
is taken from `beyond`, which may be any function. -/
def Correlator.step (soup : GoString → PageElems)
    (beyond : GoString → GoString → PriceAndShipping) (st : Correlator)
    (result : BrowserJobResult) : Correlator :=
  let mi := st.jobsInProgress.lookup result.Job.addr
  let jobsInProgress := st.jobsInProgress.filter (fun entry => entry.1 != result.Job.addr)
  match mi with
  | none => { st with jobsInProgress := jobsInProgress }
  | some mi =>
    let r := (GetPriceAndShipping soup result.Job.URL result.HTML).getD
      (beyond result.Job.URL result.HTML)
    { jobsInProgress := jobsInProgress
      vendorItems := setAmounts st.vendorItems mi r.price r.shipping
      written := st.written ++ [mi] }

/-- One access to `jobsInProgress`: an insertion of the dispatcher (lines
128-130) or a pass of the loop over `results` (lines 144-169). -/
inductive Event where
  | insert (job : BrowserJob) (mi : Nat)
  | result (r : BrowserJobResult)
  deriving DecidableEq, Repr

/-- The state after one event. -/
def Correlator.apply (soup : GoString → PageElems)
    (beyond : GoString → GoString → PriceAndShipping) (st : Correlator) : Event → Correlator
  | .insert job mi => st.insert job mi
  | .result r => Correlator.step soup beyond st r

/-- The state after the events of a run, in their order. -/
def Correlator.run (soup : GoString → PageElems)
    (beyond : GoString → GoString → PriceAndShipping) (st : Correlator)
    (events : List Event) : Correlator :=
  events.foldl (Correlator.apply soup beyond) st

/-- The vendor records of the catalog in the order the dispatcher visits them
(lines 125-126); the position here is the `*VendorItem`. -/
def catalog : List Item → List VendorItem
  | [] => []
  | item :: items => item.VendorItems ++ catalog items

/-- The jobs of the dispatcher (lines 125-133) from the `k`-th record on: each
record gets a new `BrowserJob` with its URL, the address of the job created
for the `k`-th record being `k`, and the table entry from the job to the
record. -/
def dispatchFrom (k : Nat) : List VendorItem → List (BrowserJob × Nat)
  | [] => []
  | mi :: rest => ({ addr := k, URL := mi.URL }, k) :: dispatchFrom (k + 1) rest

/-- The insertions of the dispatcher for the catalog `items`, in its order. -/
def dispatch (items : List Item) : List (BrowserJob × Nat) :=
  dispatchFrom 0 (catalog items)

/-- The insertions among the events of a run, in their order. -/
def insertsOf : List Event → List (BrowserJob × Nat)
  | [] => []
  | .insert job mi :: events => (job, mi) :: insertsOf events
  | .result _ :: events => insertsOf events

/-- Whether the event is a pass of the loop on a result of the job at `addr`. -/
def Event.resultFor (addr : Nat) : Event → Bool
  | .insert _ _ => false
  | .result r => r.Job.addr == addr

/-- The state when `LookupVendorPrices` starts its work on `items` (line 121):
an empty table, the records as they are, nothing written. -/
def Correlator.init (items : List Item) : Correlator :=
  { jobsInProgress := [], vendorItems := catalog items, written := [] }

/-- The state of `LookupVendorPrices items` after the events of a run. -/
def LookupVendorPrices.after (soup : GoString → PageElems)
    (beyond : GoString → GoString → PriceAndShipping) (items : List Item)
    (events : List Event) : Correlator :=
  Correlator.run soup beyond (Correlator.init items) events

/-- The table holds entries of the dispatcher only, whose job address is the
position of the record, and the catalog has `n` records. -/
def Tidy (n : Nat) (st : Correlator) : Prop :=
  (∀ entry ∈ st.jobsInProgress, entry.1 = entry.2) ∧ st.vendorItems.length = n

/-- An event that is an insertion of the dispatcher for a record other than
`mi`, or a pass of the loop on a result of a job other than the one of `mi`. -/
def Quiet (n mi : Nat) : Event → Prop
  | .insert job m => job.addr = m ∧ m < n ∧ m ≠ mi
  | .result r => r.Job.addr ≠ mi

/-- An event that is an insertion of the dispatcher for a record other than
`mi`, or any pass of the loop. -/
def Foreign (n mi : Nat) : Event → Prop
  | .insert job m => job.addr = m ∧ m < n ∧ m ≠ mi
  | .result _ => True

/-- The record at `mi`, the number of writes to it and its table entry are the
same in `st'` as in `st`. -/
def Same (mi : Nat) (st st' : Correlator) : Prop :=
  st'.vendorItems[mi]? = st.vendorItems[mi]? ∧
    st'.written.count mi = st.written.count mi ∧
    st'.jobsInProgress.lookup mi = st.jobsInProgress.lookup mi

/-! ## Report (`main`, lines 299-322) -/

/-- Lines 306-317, the body of the inner loop of `main` on the pair
`(totalPrice, totalShipping)`; `quantity` is `item.Quantity`. The products and
the sums are those of `int`. -/
def main.row (quantity : Int) (totals : Int × Int) (vendItem : VendorItem) : Int × Int :=
  let price := vendItem.Price
  if price = -1 then totals
  else
    let totalPrice := wrap64 (totals.1 + wrap64 (vendItem.Price * quantity))
    if vendItem.Shipping > -1 then
      (totalPrice, wrap64 (totals.2 + wrap64 (vendItem.Shipping * quantity)))
    else (totalPrice, totals.2)

/-- Lines 299-319: `totalPrice` and `totalShipping` after the two loops. -/
def main.totals (items : List Item) : Int × Int :=
  items.foldl (fun totals item => item.VendorItems.foldl (main.row item.Quantity) totals) (0, 0)

/-- The amount of the `Grand Total` row, `totalPrice+totalShipping` (line 322),
a sum of `int`. -/
def main.grandTotal (items : List Item) : Int :=
  wrap64 ((main.totals items).1 + (main.totals items).2)

/-- The binary64 value nearest to the natural number `n`, which is again a
natural number: `roundBinary64` with the integers as units. -/
def toFloat64 (n : Nat) : Nat := roundBinary64 n 1

/-- The text `fmt.Fprintf` prints for the verb `%0.2f` and the argument
`float64(c/100.0)`, `c` being an `int` (lines 312, 321 and 322). The constant
`100.0` takes the type of `c`, so `/` is the division of `int`, which
truncates toward zero; the quotient is converted to `float64` and printed with
two fractional digits. -/
def formatCents (c : Int) : String :=
  let q := Int.tdiv c 100
  (if q < 0 then "-" else "") ++ toString (toFloat64 q.natAbs) ++ ".00"

/-- The rows of the report the totals run over: every vendor record of every
item, with the quantity of its item. -/
def reportRows : List Item → List (Int × VendorItem)
  | [] => []
  | item :: items => item.VendorItems.map (fun v => (item.Quantity, v)) ++ reportRows items

/-- The sum of price × quantity over the rows whose price is not `-1`. -/
def priceSum (rows : List (Int × VendorItem)) : Int :=
  ((rows.filter (fun row => row.2.Price ≠ -1)).map (fun row => row.2.Price * row.1)).sum

/-- The sum of shipping × quantity over the rows whose price is not `-1` and
whose shipping is greater than `-1`. -/
def shippingSum (rows : List (Int × VendorItem)) : Int :=
  ((rows.filter (fun row => row.2.Price ≠ -1 ∧ row.2.Shipping > -1)).map
    (fun row => row.2.Shipping * row.1)).sum

/-! ## Lemmas on the cost selector -/

theorem replaces_iff (a b : Int) :
    replaces a b = true ↔ (a > -1 ∧ a < b) ∨ (b = -1 ∧ a > -1) := by
  simp [replaces]

theorem totalCost_ge (vi : VendorItem) (h : vi.Valid) (hfit : vi.Fits) :
    -1 ≤ vi.TotalCost := by
  obtain ⟨hp, hs⟩ := h
  unfold ValidAmount at hp hs
  unfold VendorItem.Fits at hfit
  simp only [VendorItem.TotalCost, wrap64]
  split_ifs <;> omega

theorem Best.step {l : List VendorItem} {r : Nat × VendorItem} (x : VendorItem)
    (hb : Best l r) (hr : -1 ≤ r.2.TotalCost) :
    Best (l ++ [x]) (selectStep r (l.length, x)) := by
  obtain ⟨hget, hfirst, hmin⟩ := hb
  have hlt : r.1 < l.length := (List.getElem?_eq_some.1 hget).1
  unfold selectStep
  by_cases hrep : replaces x.TotalCost r.2.TotalCost = true
  · simp only [hrep, if_true]
    have hc := (replaces_iff _ _).1 hrep
    refine ⟨by simp, fun h => by simp only at h; omega, ?_⟩
    intro j y hj hy
    simp only
    by_cases hjl : j < l.length
    · rw [List.getElem?_append_left hjl] at hj
      have := hmin j y hj hy
      omega
    · have hjl2 : l.length ≤ j := Nat.le_of_not_lt hjl
      rw [List.getElem?_append_right hjl2] at hj
      have hj0 : j - l.length = 0 := by
        by_contra hne
        have : [x][j - l.length]? = none := by
          apply List.getElem?_eq_none
          simp; omega
        rw [this] at hj; exact Option.noConfusion hj
      rw [hj0] at hj
      simp at hj
      subst hj
      omega
  · simp only [hrep, Bool.false_eq_true, if_false]
    have hc : ¬ ((x.TotalCost > -1 ∧ x.TotalCost < r.2.TotalCost) ∨
        (r.2.TotalCost = -1 ∧ x.TotalCost > -1)) := fun h => hrep ((replaces_iff _ _).2 h)
    refine ⟨by simpa [List.getElem?_append_left hlt] using hget, hfirst, ?_⟩
    intro j y hj hy
    by_cases hjl : j < l.length
    · rw [List.getElem?_append_left hjl] at hj
      exact hmin j y hj hy
    · have hjl2 : l.length ≤ j := Nat.le_of_not_lt hjl
      rw [List.getElem?_append_right hjl2] at hj
      have hj0 : j - l.length = 0 := by
        by_contra hne
        have : [x][j - l.length]? = none := by
          apply List.getElem?_eq_none
          simp; omega
        rw [this] at hj; exact Option.noConfusion hj
      rw [hj0] at hj
      simp at hj
      subst hj
      omega

theorem Best.result_ge {l : List VendorItem} {r : Nat × VendorItem} (hb : Best l r)
    (hl : ∀ x ∈ l, -1 ≤ x.TotalCost) : -1 ≤ r.2.TotalCost :=
  hl _ (List.getElem?_mem hb.1)

theorem selectStep_self (p : Nat × VendorItem) : selectStep p p = p := by
  simp [selectStep]

theorem best_foldl (v0 : VendorItem) (tl : List VendorItem)
    (hl : ∀ x ∈ v0 :: tl, -1 ≤ x.TotalCost) :
    Best (v0 :: tl) ((List.enumFrom 1 tl).foldl selectStep (0, v0)) := by
  induction tl using List.reverseRecOn with
  | nil =>
    refine ⟨rfl, fun _ => rfl, ?_⟩
    intro j y hj hy
    cases j with
    | zero => simp at hj; subst hj; simp; omega
    | succ n => simp at hj
  | append_singleton pre x ih =>
    have hpre : ∀ y ∈ v0 :: pre, -1 ≤ y.TotalCost := by
      intro y hy
      apply hl
      simp only [List.mem_cons, List.mem_append] at hy ⊢
      tauto
    have hb := ih hpre
    have hstep := Best.step x hb (hb.result_ge hpre)
    rw [List.enumFrom_append, List.foldl_append]
    simpa [Nat.add_comm] using hstep

theorem lowestCostItem_best (v0 : VendorItem) (tl : List VendorItem)
    (hl : ∀ x ∈ v0 :: tl, -1 ≤ x.TotalCost) :
    ∃ r, lowestCostItem (v0 :: tl) = some r ∧ Best (v0 :: tl) r := by
  refine ⟨_, rfl, ?_⟩
  have := best_foldl v0 tl hl
  simpa [List.enum, List.enumFrom, selectStep_self] using this

theorem foldl_selectStep_mem (l : List (Nat × VendorItem)) :
    ∀ s, l.foldl selectStep s = s ∨ l.foldl selectStep s ∈ l := by
  induction l with
  | nil => intro s; exact Or.inl rfl
  | cons a l ih =>
    intro s
    rw [List.foldl_cons]
    rcases ih (selectStep s a) with h | h
    · rw [h]
      unfold selectStep
      by_cases hrep : replaces a.2.TotalCost s.2.TotalCost = true
      · simp [hrep]
      · simp [hrep]
    · exact Or.inr (List.mem_cons_of_mem _ h)

theorem lowestCostItem_getElem? {vis : List VendorItem} {r : Nat × VendorItem}
    (h : lowestCostItem vis = some r) : vis[r.1]? = some r.2 := by
  cases vis with
  | nil => simp [lowestCostItem] at h
  | cons v0 tl =>
    simp only [lowestCostItem, Option.some.injEq] at h
    apply List.mem_enum_iff_getElem?.1
    rcases foldl_selectStep_mem (v0 :: tl).enum (0, v0) with h0 | h0
    · rw [← h, h0]; simp [List.enum, List.enumFrom]
    · rw [← h]; exact h0

theorem lowestCostItem_isSome (vis : List VendorItem) (h : vis ≠ []) :
    ∃ r, lowestCostItem vis = some r := by
  cases vis with
  | nil => exact absurd rfl h
  | cons v0 tl => exact ⟨_, rfl⟩

theorem loop_spec (items : List Item) :
    ∀ acc : List Item, (∀ it ∈ items, it.VendorItems ≠ []) →
      ∃ out, ItemsByLowestCostVendor.loop acc items = some (acc ++ out) ∧
        out.length = items.length ∧
        ∀ (i : Nat) (item : Item), items[i]? = some item →
          ∃ r : Nat × VendorItem, lowestCostItem item.VendorItems = some r ∧
            out[i]? = some ({ Description := item.Description, Quantity := item.Quantity,
                              VendorItems := [r.2] } : Item) := by
  induction items with
  | nil =>
    intro acc _
    exact ⟨[], by simp [ItemsByLowestCostVendor.loop], rfl, fun i item h => by simp at h⟩
  | cons it rest ih =>
    intro acc hne
    obtain ⟨r, hr⟩ := lowestCostItem_isSome it.VendorItems (hne it (List.mem_cons_self _ _))
    obtain ⟨out, hout, hlen, hget⟩ :=
      ih (acc ++ [{ Description := it.Description, Quantity := it.Quantity,
                    VendorItems := [r.2] }])
        (fun x hx => hne x (List.mem_cons_of_mem _ hx))
    refine ⟨{ Description := it.Description, Quantity := it.Quantity,
              VendorItems := [r.2] } :: out, ?_, by simp [hlen], ?_⟩
    · simp only [ItemsByLowestCostVendor.loop, hr, NewItem]
      rw [hout]; simp
    · intro i item hi
      cases i with
      | zero =>
        simp only [List.getElem?_cons_zero, Option.some.injEq] at hi
        subst hi
        exact ⟨r, hr, by simp⟩
      | succ n =>
        simp only [List.getElem?_cons_succ] at hi ⊢
        exact hget n item hi

theorem selects_exists (items : List Item) (i : Nat) (item : Item)
    (hi : items[i]? = some item) (hne : ∀ it ∈ items, it.VendorItems ≠ []) :
    ∃ pos chosen, Selects items i item pos chosen := by
  obtain ⟨out, hout, _, hget⟩ := loop_spec items [] hne
  obtain ⟨r, hr, ho⟩ := hget i item hi
  exact ⟨r.1, r.2, out, by simpa [ItemsByLowestCostVendor] using hout, hr, ho⟩

theorem Selects.best {items : List Item} {i : Nat} {item : Item} {pos : Nat}
    {chosen : VendorItem} (h : Selects items i item pos chosen)
    (hl : ∀ x ∈ item.VendorItems, -1 ≤ x.TotalCost) :
    Best item.VendorItems (pos, chosen) := by
  obtain ⟨_, _, hlow, _⟩ := h
  cases hvis : item.VendorItems with
  | nil => rw [hvis] at hlow; simp [lowestCostItem] at hlow
  | cons v0 tl =>
    rw [hvis] at hlow hl
    obtain ⟨r, hr, hb⟩ := lowestCostItem_best v0 tl hl
    rw [hlow] at hr
    cases hr
    exact hb

/-! ## Claims on the cost selector -/

/-- C1, counterexample. The records (price `2^63 - 1`, shipping `1`) and
(price `10`, shipping `0`) satisfy the data-model invariant and the second has
the resolved total `10`, yet `ItemsByLowestCostVendor` chooses the first: its
`TotalCost` overflows to `-2^63`, which is not a resolved total. -/
theorem lowest_total_overflow_counterexample :
    (priced 9223372036854775807 1).Valid ∧ (priced 10 0).Valid ∧
    (priced 10 0).TotalCost > -1 ∧
    ItemsByLowestCostVendor [⟨[], 1, [priced 9223372036854775807 1, priced 10 0]⟩]
      = some [⟨[], 1, [priced 9223372036854775807 1]⟩] ∧
    (priced 9223372036854775807 1).TotalCost = -9223372036854775808 ∧
    ¬ (priced 9223372036854775807 1).TotalCost > -1 := by
  decide

/-- C1, amended. For every item with at least one vendor record whose amounts
are each `-1` or non-negative and whose price plus shipping is at most
`2^63 - 1` for every record: if some record has a resolved total
(`TotalCost > -1`), the record `ItemsByLowestCostVendor` chooses is one of the
item's records, has a resolved total, and that total is at most the total of
every record of the item whose total is resolved. -/
theorem lowest_total_selected (items : List Item) (i : Nat) (item : Item)
    (hi : items[i]? = some item) (hne : ∀ it ∈ items, it.VendorItems ≠ [])
    (hv : ∀ v ∈ item.VendorItems, v.Valid)
    (hfit : ∀ v ∈ item.VendorItems, v.Fits)
    (hres : ∃ v ∈ item.VendorItems, v.TotalCost > -1) :
    ∃ pos chosen, Selects items i item pos chosen ∧ chosen ∈ item.VendorItems ∧
      chosen.TotalCost > -1 ∧
      ∀ v ∈ item.VendorItems, v.TotalCost > -1 → chosen.TotalCost ≤ v.TotalCost := by
  obtain ⟨pos, chosen, hsel⟩ := selects_exists items i item hi hne
  have hb := hsel.best (fun x hx => totalCost_ge x (hv x hx) (hfit x hx))
  obtain ⟨hget, _, hmin⟩ := hb
  refine ⟨pos, chosen, hsel, List.getElem?_mem hget, ?_, ?_⟩
  · obtain ⟨v, hvmem, hvt⟩ := hres
    obtain ⟨j, hj⟩ := List.getElem?_of_mem hvmem
    exact (hmin j v hj hvt).1
  · intro v hvmem hvt
    obtain ⟨j, hj⟩ := List.getElem?_of_mem hvmem
    have := (hmin j v hj hvt).2
    simp only at this
    omega

/-- Witness of C1 (amended): one item offered unresolved, at 500+100 and at
450+200. -/
theorem lowest_total_selected_witness :
    ∃ pos chosen,
      Selects [⟨[], 2, [priced (-1) (-1), priced 500 100, priced 450 200]⟩] 0
        ⟨[], 2, [priced (-1) (-1), priced 500 100, priced 450 200]⟩ pos chosen ∧
      chosen ∈ [priced (-1) (-1), priced 500 100, priced 450 200] ∧
      chosen.TotalCost > -1 ∧
      ∀ v ∈ [priced (-1) (-1), priced 500 100, priced 450 200],
        v.TotalCost > -1 → chosen.TotalCost ≤ v.TotalCost :=
  lowest_total_selected [⟨[], 2, [priced (-1) (-1), priced 500 100, priced 450 200]⟩] 0
    ⟨[], 2, [priced (-1) (-1), priced 500 100, priced 450 200]⟩
    (by decide) (by decide) (by decide) (by decide) (by decide)

/-- C2, counterexample. The records (price `-1`, shipping `5`) and (price `10`,
shipping `0`) satisfy the data-model invariant and the second is resolved, yet
in both orders `ItemsByLowestCostVendor` chooses the record of price `-1`: its
`TotalCost` is `4`. -/
theorem unresolved_price_selected_counterexample :
    (priced (-1) 5).Valid ∧ (priced 10 0).Valid ∧ (priced 10 0).Price ≠ -1 ∧
    (priced (-1) 5).Price = -1 ∧
    ItemsByLowestCostVendor [⟨[], 1, [priced (-1) 5, priced 10 0]⟩]
      = some [⟨[], 1, [priced (-1) 5]⟩] ∧
    ItemsByLowestCostVendor [⟨[], 1, [priced 10 0, priced (-1) 5]⟩]
      = some [⟨[], 1, [priced (-1) 5]⟩] := by
  decide

/-- C2, amended. For every item whose vendor records satisfy the data-model
invariant, in which every record of price `-1` has shipping `-1` or `0` and in
which price plus shipping is at most `2^63 - 1` for every record, in every
order `recs` of those records: if some record has price other than `-1`, the
record `ItemsByLowestCostVendor` chooses has a price other than `-1`. -/
theorem resolved_price_selected (items : List Item) (i : Nat) (item : Item)
    (recs : List VendorItem) (hperm : item.VendorItems.Perm recs)
    (hi : items[i]? = some item) (hne : ∀ it ∈ items, it.VendorItems ≠ [])
    (hv : ∀ v ∈ recs, v.Valid)
    (hpair : ∀ v ∈ recs, v.Price = -1 → v.Shipping ≤ 0)
    (hfit : ∀ v ∈ recs, v.Fits)
    (hres : ∃ v ∈ recs, v.Price ≠ -1) :
    ∃ pos chosen, Selects items i item pos chosen ∧ chosen ∈ recs ∧ chosen.Price ≠ -1 := by
  obtain ⟨pos, chosen, hsel⟩ := selects_exists items i item hi hne
  have hb := hsel.best (fun x hx =>
    totalCost_ge x (hv x (hperm.mem_iff.1 hx)) (hfit x (hperm.mem_iff.1 hx)))
  obtain ⟨hget, _, hmin⟩ := hb
  have hmem : chosen ∈ recs := hperm.mem_iff.1 (List.getElem?_mem hget)
  refine ⟨pos, chosen, hsel, hmem, ?_⟩
  obtain ⟨v, hvmem, hvp⟩ := hres
  obtain ⟨j, hj⟩ := List.getElem?_of_mem (hperm.mem_iff.2 hvmem)
  have hvt : v.TotalCost > -1 := by
    obtain ⟨h1, h2⟩ := hv v hvmem
    have h3 := hfit v hvmem
    unfold ValidAmount at h1 h2
    unfold VendorItem.Fits at h3
    simp only [VendorItem.TotalCost, wrap64]
    split_ifs <;> omega
  have hct : chosen.TotalCost > -1 := (hmin j v hj hvt).1
  intro hcp
  have hcs := hpair chosen hmem hcp
  obtain ⟨_, h2⟩ := hv chosen hmem
  unfold ValidAmount at h2
  simp only [VendorItem.TotalCost, wrap64] at hct
  split_ifs at hct <;> omega

/-- Witness of C2 (amended): an unresolved record listed before a resolved one. -/
theorem resolved_price_selected_witness :
    ∃ pos chosen,
      Selects [⟨[], 1, [priced (-1) (-1), priced 10 0]⟩] 0
        ⟨[], 1, [priced (-1) (-1), priced 10 0]⟩ pos chosen ∧
      chosen ∈ [priced 10 0, priced (-1) (-1)] ∧ chosen.Price ≠ -1 :=
  resolved_price_selected [⟨[], 1, [priced (-1) (-1), priced 10 0]⟩] 0
    ⟨[], 1, [priced (-1) (-1), priced 10 0]⟩ [priced 10 0, priced (-1) (-1)]
    (List.Perm.swap _ _ _) (by decide) (by decide) (by decide) (by decide) (by decide)
    (by decide)

/-- C3, counterexample. The records (`2^63 - 1`, `1`), (`5`, `0`) and
(`5`, `0`) satisfy the data-model invariant; the lowest resolved total is `5`,
at positions 1 and 2, yet `ItemsByLowestCostVendor` chooses position 0, whose
`TotalCost` overflows to `-2^63`. -/
theorem first_of_equal_overflow_counterexample :
    (priced 9223372036854775807 1).Valid ∧ (priced 5 0).Valid ∧
    (priced 5 0).TotalCost = 5 ∧
    (∀ w ∈ [priced 9223372036854775807 1, priced 5 0, priced 5 0],
      w.TotalCost > -1 → (priced 5 0).TotalCost ≤ w.TotalCost) ∧
    lowestCostItem [priced 9223372036854775807 1, priced 5 0, priced 5 0]
      = some (0, priced 9223372036854775807 1) ∧
    ItemsByLowestCostVendor
        [⟨[], 1, [priced 9223372036854775807 1, priced 5 0, priced 5 0]⟩]
      = some [⟨[], 1, [priced 9223372036854775807 1]⟩] ∧
    (priced 9223372036854775807 1).TotalCost ≠ (priced 5 0).TotalCost := by
  decide

/-- C3, amended. For every item whose records' amounts are each `-1` or
non-negative and whose price plus shipping is at most `2^63 - 1` for every
record: the record `ItemsByLowestCostVendor` chooses sits at the smallest
position among the records of lowest resolved total (whenever the record at
position `j` has the lowest resolved total, the chosen one has the same total
and a position `pos ≤ j`), and a candidate whose total equals the total of the
current choice never replaces it. -/
theorem first_of_equal_totals (items : List Item) (i : Nat) (item : Item)
    (hi : items[i]? = some item) (hne : ∀ it ∈ items, it.VendorItems ≠ [])
    (hv : ∀ v ∈ item.VendorItems, v.Valid)
    (hfit : ∀ v ∈ item.VendorItems, v.Fits) :
    ∃ pos chosen, Selects items i item pos chosen ∧
      item.VendorItems[pos]? = some chosen ∧
      (∀ j v, item.VendorItems[j]? = some v → v.TotalCost > -1 →
        (∀ w ∈ item.VendorItems, w.TotalCost > -1 → v.TotalCost ≤ w.TotalCost) →
        chosen.TotalCost = v.TotalCost ∧ pos ≤ j) ∧
      ∀ low vi : Nat × VendorItem, vi.2.TotalCost = low.2.TotalCost →
        selectStep low vi = low := by
  obtain ⟨pos, chosen, hsel⟩ := selects_exists items i item hi hne
  have hb := hsel.best (fun x hx => totalCost_ge x (hv x hx) (hfit x hx))
  obtain ⟨hget, _, hmin⟩ := hb
  refine ⟨pos, chosen, hsel, hget, ?_, ?_⟩
  · intro j v hj hvt hleast
    obtain ⟨hct, hor⟩ := hmin j v hj hvt
    have hle := hleast chosen (List.getElem?_mem hget) hct
    simp only at hor
    omega
  · intro low vi heq
    have hno : replaces vi.2.TotalCost low.2.TotalCost = false := by
      rw [Bool.eq_false_iff]
      intro h
      have := (replaces_iff _ _).1 h
      omega
    simp [selectStep, hno]

/-- Witness of C3 (amended): positions 1 and 2 share the lowest resolved total
600. -/
theorem first_of_equal_totals_witness :
    ∃ pos chosen,
      Selects [⟨[], 1, [priced 700 0, priced 500 100, priced 600 (-1)]⟩] 0
        ⟨[], 1, [priced 700 0, priced 500 100, priced 600 (-1)]⟩ pos chosen ∧
      [priced 700 0, priced 500 100, priced 600 (-1)][pos]? = some chosen ∧
      (∀ j v, [priced 700 0, priced 500 100, priced 600 (-1)][j]? = some v →
        v.TotalCost > -1 →
        (∀ w ∈ [priced 700 0, priced 500 100, priced 600 (-1)],
          w.TotalCost > -1 → v.TotalCost ≤ w.TotalCost) →
        chosen.TotalCost = v.TotalCost ∧ pos ≤ j) ∧
      ∀ low vi : Nat × VendorItem, vi.2.TotalCost = low.2.TotalCost →
        selectStep low vi = low :=
  first_of_equal_totals [⟨[], 1, [priced 700 0, priced 500 100, priced 600 (-1)]⟩] 0
    ⟨[], 1, [priced 700 0, priced 500 100, priced 600 (-1)]⟩
    (by decide) (by decide) (by decide) (by decide)

/-! ## Claims on `TotalCost` -/

/-- C4, counterexample. Price `-1` with shipping `5` (each `-1` or
non-negative) has `TotalCost` `4`, not `-1`. -/
theorem totalCost_sentinel_counterexample :
    ValidAmount (-1) ∧ ValidAmount 5 ∧ (priced (-1) 5).Price = -1 ∧
    (priced (-1) 5).TotalCost = 4 ∧ (priced (-1) 5).TotalCost ≠ -1 := by
  decide

/-- C4, amended. For all values `p` and `s` of `int` that are each `-1` or
non-negative, a VendorItem of price `p` and shipping `s` has `TotalCost = -1`
if and only if `p = -1` and `s` is `-1` or `0`. -/
theorem totalCost_eq_neg_one_iff (name url : GoString) (p s : Int)
    (hp : ValidAmount p) (hs : ValidAmount s) :
    ({ VendorName := name, URL := url, Price := p, Shipping := s } : VendorItem).TotalCost = -1
      ↔ p = -1 ∧ (s = -1 ∨ s = 0) := by
  unfold ValidAmount at hp hs
  simp only [VendorItem.TotalCost, wrap64]
  split_ifs <;> omega

/-- Witness of C4 (amended): the pair `(-1, -1)` every failed extraction
returns. -/
theorem totalCost_eq_neg_one_iff_witness :
    ({ VendorName := [], URL := [], Price := -1, Shipping := -1 } : VendorItem).TotalCost = -1
      ↔ (-1 : Int) = -1 ∧ ((-1 : Int) = -1 ∨ (-1 : Int) = 0) :=
  totalCost_eq_neg_one_iff [] [] (-1) (-1) (by decide) (by decide)

/-- C5, counterexample. Price `2^63 - 1` with shipping `1` (`p ≥ 0`,
`s ≥ -1`) has `TotalCost` `-2^63`, not `p + max s 0 = 2^63`: the addition of
`int` wraps around. -/
theorem totalCost_overflow_counterexample :
    (0 : Int) ≤ 9223372036854775807 ∧ (-1 : Int) ≤ 1 ∧
    (priced 9223372036854775807 1).TotalCost = -9223372036854775808 ∧
    (priced 9223372036854775807 1).TotalCost ≠ 9223372036854775807 + max 1 0 := by
  decide

/-- C5, amended. For every VendorItem of price `p ≥ 0` and shipping `s ≥ -1`
with `p + max s 0` at most `2^63 - 1`, `TotalCost = p + max s 0`: with
`s = -1` the total is `p` alone, with `s ≥ 0` (also `s = 0`) it is `p + s`. -/
theorem totalCost_eq_add_max (name url : GoString) (p s : Int) (hp : 0 ≤ p) (hs : -1 ≤ s)
    (hfit : p + max s 0 ≤ 9223372036854775807) :
    ({ VendorName := name, URL := url, Price := p, Shipping := s } : VendorItem).TotalCost
        = p + max s 0 ∧
      (s = -1 →
        ({ VendorName := name, URL := url, Price := p, Shipping := s } : VendorItem).TotalCost
          = p) ∧
      (0 ≤ s →
        ({ VendorName := name, URL := url, Price := p, Shipping := s } : VendorItem).TotalCost
          = p + s) := by
  simp only [VendorItem.TotalCost, wrap64]
  refine ⟨?_, ?_, ?_⟩
  · split_ifs <;> omega
  · intro h; split_ifs <;> omega
  · intro h; split_ifs <;> omega

/-- Witness of C5 (amended): price 500 with unknown shipping. -/
theorem totalCost_eq_add_max_witness :
    ({ VendorName := [], URL := [], Price := 500, Shipping := -1 } : VendorItem).TotalCost
        = 500 + max (-1) 0 ∧
      ((-1 : Int) = -1 →
        ({ VendorName := [], URL := [], Price := 500, Shipping := -1 } : VendorItem).TotalCost
          = 500) ∧
      ((0 : Int) ≤ -1 →
        ({ VendorName := [], URL := [], Price := 500, Shipping := -1 } : VendorItem).TotalCost
          = 500 + -1) :=
  totalCost_eq_add_max [] [] 500 (-1) (by decide) (by decide) (by decide)

/-! ## Claims on the shape of the selector's output -/

/-- C6. For every list of items each of which has at least one vendor record,
`ItemsByLowestCostVendor` returns a list of the same length, and the `i`-th
output item has the description and quantity of the `i`-th input item and
exactly one vendor record, which is one of that input item's records. -/
theorem output_shape (items : List Item) (hne : ∀ it ∈ items, it.VendorItems ≠ []) :
    ∃ out, ItemsByLowestCostVendor items = some out ∧ out.length = items.length ∧
      ∀ (i : Nat) (item : Item), items[i]? = some item →
        ∃ chosen, chosen ∈ item.VendorItems ∧
          out[i]? = some ({ Description := item.Description, Quantity := item.Quantity,
                            VendorItems := [chosen] } : Item) := by
  obtain ⟨out, hout, hlen, hget⟩ := loop_spec items [] hne
  refine ⟨out, by simpa [ItemsByLowestCostVendor] using hout, hlen, ?_⟩
  intro i item hi
  obtain ⟨r, hr, ho⟩ := hget i item hi
  exact ⟨r.2, List.getElem?_mem (lowestCostItem_getElem? hr), ho⟩

/-- Witness of C6: two items, the second with a single unresolved record. -/
theorem output_shape_witness :
    ∃ out, ItemsByLowestCostVendor
        [⟨['a'], 2, [priced 500 100, priced 450 200]⟩, ⟨['b'], 1, [priced (-1) (-1)]⟩]
        = some out ∧
      out.length =
        [(⟨['a'], 2, [priced 500 100, priced 450 200]⟩ : Item),
          ⟨['b'], 1, [priced (-1) (-1)]⟩].length ∧
      ∀ (i : Nat) (item : Item),
        [(⟨['a'], 2, [priced 500 100, priced 450 200]⟩ : Item),
          ⟨['b'], 1, [priced (-1) (-1)]⟩][i]? = some item →
        ∃ chosen, chosen ∈ item.VendorItems ∧
          out[i]? = some ({ Description := item.Description, Quantity := item.Quantity,
                            VendorItems := [chosen] } : Item) :=
  output_shape [⟨['a'], 2, [priced 500 100, priced 450 200]⟩, ⟨['b'], 1, [priced (-1) (-1)]⟩]
    (by decide)

/-- C7. For every item with at least one vendor record, if every vendor record
has total cost `-1`, `ItemsByLowestCostVendor` chooses the record at position
`0` of the item's vendor records, as it stands there. -/
theorem all_unresolved_first (items : List Item) (i : Nat) (item : Item)
    (hi : items[i]? = some item) (hne : ∀ it ∈ items, it.VendorItems ≠ [])
    (hall : ∀ v ∈ item.VendorItems, v.TotalCost = -1) :
    ∃ chosen, Selects items i item 0 chosen ∧ item.VendorItems[0]? = some chosen := by
  obtain ⟨pos, chosen, hsel⟩ := selects_exists items i item hi hne
  have hb := hsel.best (fun x hx => by rw [hall x hx])
  obtain ⟨hget, hfirst, _⟩ := hb
  have hpos : pos = 0 := hfirst (hall chosen (List.getElem?_mem hget))
  subst hpos
  exact ⟨chosen, hsel, hget⟩

/-- Witness of C7: three records, all unresolved. -/
theorem all_unresolved_first_witness :
    ∃ chosen,
      Selects [⟨[], 1, [priced (-1) (-1), priced (-1) 0, priced (-1) (-1)]⟩] 0
        ⟨[], 1, [priced (-1) (-1), priced (-1) 0, priced (-1) (-1)]⟩ 0 chosen ∧
      [priced (-1) (-1), priced (-1) 0, priced (-1) (-1)][0]? = some chosen :=
  all_unresolved_first [⟨[], 1, [priced (-1) (-1), priced (-1) 0, priced (-1) (-1)]⟩] 0
    ⟨[], 1, [priced (-1) (-1), priced (-1) 0, priced (-1) (-1)]⟩
    (by decide) (by decide) (by decide)

/-! ## Lemmas on the catalog loader -/

theorem readLines_line (body rest : GoString) (hb : '\n' ∉ body) :
    readLines (body ++ '\n' :: rest) = (body ++ ['\n']) :: readLines rest := by
  induction body with
  | nil => simp [readLines]
  | cons c cs ih =>
    have hc : c ≠ '\n' := fun h => hb (by simp [h])
    have hcs : '\n' ∉ cs := fun h => hb (List.mem_cons_of_mem _ h)
    simp [readLines, hc, ih hcs]

theorem readLines_of_not_mem (tail : GoString) (ht : '\n' ∉ tail) : readLines tail = [] := by
  induction tail with
  | nil => rfl
  | cons c cs ih =>
    have hc : c ≠ '\n' := fun h => ht (by simp [h])
    have hcs : '\n' ∉ cs := fun h => ht (List.mem_cons_of_mem _ h)
    simp [readLines, hc, ih hcs]

theorem readLines_joinLines (bodies : List GoString) (rest : GoString)
    (hb : ∀ b ∈ bodies, '\n' ∉ b) :
    readLines (joinLines bodies ++ rest) =
      bodies.map (fun b => b ++ ['\n']) ++ readLines rest := by
  induction bodies with
  | nil => simp [joinLines]
  | cons b bs ih =>
    have h1 : '\n' ∉ b := hb b (List.mem_cons_self _ _)
    have h2 : ∀ x ∈ bs, '\n' ∉ x := fun x hx => hb x (List.mem_cons_of_mem _ hx)
    simp only [joinLines, List.append_assoc, List.cons_append, List.map_cons]
    rw [readLines_line b _ h1, ih h2]

theorem loop_accepted (lines : List GoString) :
    ∀ (lineNum : Nat) (colNames : List GoString) (items0 items : List Item),
      LoadItems.loop none lineNum colNames items0 lines = .ret items none →
      ∃ colNames', ∀ (readErr : Option String) (more : List GoString),
        LoadItems.loop readErr lineNum colNames items0 (lines ++ more) =
          LoadItems.loop readErr (lineNum + lines.length) colNames' items more := by
  induction lines with
  | nil =>
    intro lineNum colNames items0 items h
    simp only [LoadItems.loop, Option.map_none', LoadResult.ret.injEq, and_true] at h
    subst h
    exact ⟨colNames, fun _ _ => by simp⟩
  | cons line lines ih =>
    intro lineNum colNames items0 items h
    rw [LoadItems.loop] at h
    simp only at h
    by_cases h3 : (Split '\t' line).length < 3
    · simp [h3] at h
    by_cases h1 : lineNum = 1
    · subst h1
      simp only [h3, if_false, if_true] at h
      obtain ⟨cols', hc⟩ := ih _ _ _ _ h
      refine ⟨cols', fun readErr more => ?_⟩
      rw [List.cons_append, LoadItems.loop]
      simp only [h3, if_false, if_true]
      rw [hc]
      congr 1
      simp only [List.length_cons]; omega
    · simp only [h3, h1, if_false] at h
      cases hq : ParseInt ((Split '\t' line).getD 1 []) with
      | error e => rw [hq] at h; simp at h
      | ok qty =>
        rw [hq] at h
        dsimp only at h
        cases hvis : LoadItems.vendors colNames 0 (List.drop 2 (Split '\t' line))
            (NewItem (TrimSpace ((Split '\t' line).getD 0 [])) qty).VendorItems with
        | none => rw [hvis] at h; simp at h
        | some vis =>
          rw [hvis] at h
          dsimp only at h
          obtain ⟨cols', hc⟩ := ih _ _ _ _ h
          refine ⟨cols', fun readErr more => ?_⟩
          rw [List.cons_append, LoadItems.loop]
          simp only [h3, h1, if_false]
          rw [hq]
          dsimp only
          rw [hvis]
          dsimp only
          rw [hc]
          congr 1
          simp only [List.length_cons]; omega

theorem vendors_spec (colNames : List GoString) (urls : List GoString) :
    ∀ (i : Nat) (acc vis : List VendorItem),
      LoadItems.vendors colNames i urls acc = some vis →
      ∃ new, vis = acc ++ new ∧ new.length = urls.length ∧
        ∀ j, j < urls.length →
          ∃ colName url, colNames[i + j + 2]? = some colName ∧ urls[j]? = some url ∧
            new[j]? = some (NewVendorItem (TrimSpace colName) (TrimSpace url)) := by
  induction urls with
  | nil =>
    intro i acc vis h
    simp only [LoadItems.vendors, Option.some.injEq] at h
    exact ⟨[], by simp [h], rfl, fun j hj => by simp at hj⟩
  | cons url urls ih =>
    intro i acc vis h
    rw [LoadItems.vendors] at h
    cases hcol : colNames[i + 2]? with
    | none => rw [hcol] at h; simp at h
    | some colName =>
      rw [hcol] at h
      dsimp only at h
      obtain ⟨new, hnew, hlen, hget⟩ := ih _ _ _ h
      refine ⟨NewVendorItem (TrimSpace colName) (TrimSpace url) :: new, by simp [hnew],
        by simp [hlen], ?_⟩
      intro j hj
      cases j with
      | zero => exact ⟨colName, url, by simpa using hcol, by simp, by simp⟩
      | succ n =>
        have hn : n < urls.length := by simpa using hj
        obtain ⟨c, u, h1, h2, h3⟩ := hget n hn
        refine ⟨c, u, ?_, by simpa using h2, by simpa using h3⟩
        rw [← h1]; congr 1; omega

theorem getElem?_getD_of_lt {α : Type} (l : List α) (i : Nat) (d : α) (h : i < l.length) :
    l[i]? = some (l.getD i d) := by
  simp [List.getD_eq_getElem?_getD, List.getElem?_eq_getElem h]

theorem rowSpec_of_step (colNames : List GoString) (line : GoString) (qty : Int)
    (vis : List VendorItem) (h3 : ¬ (Split '\t' line).length < 3)
    (hq : ParseInt ((Split '\t' line).getD 1 []) = .ok qty)
    (hvis : LoadItems.vendors colNames 0 (List.drop 2 (Split '\t' line)) [] = some vis) :
    RowSpec colNames line
      { Description := TrimSpace ((Split '\t' line).getD 0 []), Quantity := qty,
        VendorItems := vis } := by
  obtain ⟨new, hnew, hlen, hget⟩ := vendors_spec _ _ _ _ _ hvis
  simp only [List.nil_append] at hnew
  subst hnew
  rw [List.length_drop] at hlen
  have hlen3 : 3 ≤ (Split '\t' line).length := Nat.le_of_not_lt h3
  refine ⟨_, _, getElem?_getD_of_lt (Split '\t' line) 0 [] (by omega),
    getElem?_getD_of_lt (Split '\t' line) 1 [] (by omega), rfl, hq, hlen, by omega, ?_⟩
  intro j hj
  obtain ⟨c, u, h1, h2, h3'⟩ := hget j (by rw [List.length_drop]; exact hj)
  refine ⟨_, c, u, h3', by simpa using h1, ?_, rfl, rfl⟩
  rw [List.getElem?_drop] at h2
  rw [← h2]; congr 1; omega

theorem loop_rows (lines : List GoString) :
    ∀ (readErr : Option String) (lineNum : Nat) (colNames : List GoString)
      (items0 items : List Item), 2 ≤ lineNum →
      LoadItems.loop readErr lineNum colNames items0 lines = .ret items none →
      ∃ new, items = items0 ++ new ∧ new.length = lines.length ∧
        ∀ (i : Nat) (item : Item), new[i]? = some item →
          ∃ row, lines[i]? = some row ∧ RowSpec colNames row item := by
  induction lines with
  | nil =>
    intro readErr lineNum colNames items0 items _ h
    simp only [LoadItems.loop, LoadResult.ret.injEq] at h
    exact ⟨[], by simp [h.1], rfl, fun i item hi => by simp at hi⟩
  | cons line lines ih =>
    intro readErr lineNum colNames items0 items h2 h
    have h1 : lineNum ≠ 1 := by omega
    rw [LoadItems.loop] at h
    simp only at h
    by_cases h3 : (Split '\t' line).length < 3
    · simp [h3] at h
    simp only [h3, h1, if_false] at h
    cases hq : ParseInt ((Split '\t' line).getD 1 []) with
    | error e => rw [hq] at h; simp at h
    | ok qty =>
      rw [hq] at h
      dsimp only at h
      cases hvis : LoadItems.vendors colNames 0 (List.drop 2 (Split '\t' line))
          (NewItem (TrimSpace ((Split '\t' line).getD 0 [])) qty).VendorItems with
      | none => rw [hvis] at h; simp at h
      | some vis =>
        rw [hvis] at h
        dsimp only at h
        obtain ⟨new, hnew, hlen, hget⟩ := ih readErr (lineNum + 1) _ _ _ (by omega) h
        refine ⟨({ Description := TrimSpace ((Split '\t' line).getD 0 []), Quantity := qty,
                   VendorItems := vis } : Item) :: new,
          by rw [hnew]; simp [NewItem], by simp [hlen], ?_⟩
        intro i item hi
        cases i with
        | zero =>
          simp only [List.getElem?_cons_zero, Option.some.injEq] at hi
          subst hi
          exact ⟨line, by simp, rowSpec_of_step colNames line qty vis h3 hq hvis⟩
        | succ n =>
          simp only [List.getElem?_cons_succ] at hi ⊢
          exact hget n item hi

/-! ## Claims on the catalog loader -/

/-- C9. The input starts with the newline-terminated lines `pre`, which
`LoadItems` accepts (it returns `items` and no error on them alone), followed
by a newline-terminated line that splits into `n < 3` tab-separated fields.
Then `LoadItems` returns `items` and the error whose text is
`error [line k]: need at least 3 columns, only found n`, `k` being the 1-based
number of that line; with `pre` empty the line is the header (`k = 1`). -/
theorem too_few_columns (pre : List GoString) (body post : GoString)
    (readErr : Option String) (items : List Item) (n : Nat)
    (hpre : ∀ b ∈ pre, '\n' ∉ b) (hbody : '\n' ∉ body)
    (hn : (Split '\t' (body ++ ['\n'])).length = n) (hlt : n < 3)
    (hacc : LoadItems ⟨joinLines pre, none⟩ = .ret items none) :
    LoadItems ⟨joinLines pre ++ (body ++ '\n' :: post), readErr⟩ =
      .ret items (some (.errorf
        ("error [line " ++ toString (pre.length + 1) ++
          "]: need at least 3 columns, only found " ++ toString n))) := by
  unfold LoadItems at hacc ⊢
  simp only at hacc ⊢
  have h0 := readLines_joinLines pre [] hpre
  simp only [List.append_nil, readLines] at h0
  rw [h0] at hacc
  obtain ⟨cols', hc⟩ := loop_accepted _ _ _ _ _ hacc
  rw [readLines_joinLines pre _ hpre, readLines_line body post hbody, hc]
  rw [LoadItems.loop]
  simp only [hn, hlt, if_true, columnsError, List.length_map]
  rw [Nat.add_comm]

/-- Witness of C9: the third line has two fields. -/
theorem too_few_columns_witness :
    LoadItems ⟨joinLines ["Item\tQty\tA\tB".toList, "nut\t4\thttp://a/n\thttp://b/n".toList] ++
        ("bolt\t7".toList ++ '\n' :: "washer\t1\thttp://a/w\thttp://b/w\n".toList), none⟩ =
      .ret [⟨"nut".toList, 4,
              [⟨['A'], "http://a/n".toList, 0, 0⟩, ⟨['B'], "http://b/n".toList, 0, 0⟩]⟩]
        (some (.errorf
          ("error [line " ++ toString (["Item\tQty\tA\tB".toList,
              "nut\t4\thttp://a/n\thttp://b/n".toList].length + 1) ++
            "]: need at least 3 columns, only found " ++ toString 2))) :=
  too_few_columns ["Item\tQty\tA\tB".toList, "nut\t4\thttp://a/n\thttp://b/n".toList]
    "bolt\t7".toList "washer\t1\thttp://a/w\thttp://b/w\n".toList none _ 2
    (by decide) (by decide) (by decide) (by decide) (by decide)

/-- C10. Whenever `LoadItems` returns without error on the input made of the
newline-terminated lines `bodies` and an unterminated rest `tail`, it returns
one item per line after the header line, in input order, and the item of a
row with `m` fields has the description, the quantity and the `m - 2 ≥ 1`
vendor records `RowSpec` prescribes, the header fields giving the names. -/
theorem load_ok_rows (r : Reader) (bodies : List GoString) (tail : GoString)
    (items : List Item) (hdata : r.data = joinLines bodies ++ tail)
    (hb : ∀ b ∈ bodies, '\n' ∉ b) (ht : '\n' ∉ tail)
    (hok : LoadItems r = .ret items none) :
    items.length = bodies.length - 1 ∧
      ∀ (i : Nat) (item : Item), items[i]? = some item →
        ∃ header row, bodies[0]? = some header ∧ bodies[i + 1]? = some row ∧
          RowSpec (Split '\t' (header ++ ['\n'])) (row ++ ['\n']) item := by
  unfold LoadItems at hok
  rw [hdata, readLines_joinLines bodies tail hb, readLines_of_not_mem tail ht,
    List.append_nil] at hok
  cases bodies with
  | nil =>
    simp only [List.map_nil, LoadItems.loop, LoadResult.ret.injEq] at hok
    refine ⟨by simp [← hok.1], fun i item hi => ?_⟩
    rw [← hok.1] at hi
    simp at hi
  | cons header rows =>
    rw [List.map_cons, LoadItems.loop] at hok
    simp only at hok
    by_cases h3 : (Split '\t' (header ++ ['\n'])).length < 3
    · simp [h3] at hok
    simp only [h3, if_false, if_true, List.nil_append] at hok
    obtain ⟨new, hnew, hlen, hget⟩ := loop_rows _ _ (1 + 1) _ _ _ (by omega) hok
    simp only [List.nil_append] at hnew
    subst hnew
    refine ⟨by simpa using hlen, fun i item hi => ?_⟩
    obtain ⟨row, hrow, hspec⟩ := hget i item hi
    rw [List.getElem?_map] at hrow
    cases hr : rows[i]? with
    | none => rw [hr] at hrow; simp at hrow
    | some body =>
      rw [hr] at hrow
      simp only [Option.map_some', Option.some.injEq] at hrow
      subst hrow
      exact ⟨header, body, by simp, by simpa using hr, hspec⟩

/-- Witness of C10: a header, one row, and an unterminated rest. -/
theorem load_ok_rows_witness :
    [(⟨"widget".toList, 2,
        [⟨['A'], "http://a/1".toList, 0, 0⟩, ⟨['B'], "http://b/1".toList, 0, 0⟩]⟩ : Item)].length
        = ["Item\tQty\tA\tB".toList, " widget \t2\thttp://a/1 \thttp://b/1".toList].length - 1 ∧
      ∀ (i : Nat) (item : Item),
        [(⟨"widget".toList, 2,
          [⟨['A'], "http://a/1".toList, 0, 0⟩, ⟨['B'], "http://b/1".toList, 0, 0⟩]⟩ : Item)][i]?
          = some item →
        ∃ header row,
          ["Item\tQty\tA\tB".toList, " widget \t2\thttp://a/1 \thttp://b/1".toList][0]?
            = some header ∧
          ["Item\tQty\tA\tB".toList, " widget \t2\thttp://a/1 \thttp://b/1".toList][i + 1]?
            = some row ∧
          RowSpec (Split '\t' (header ++ ['\n'])) (row ++ ['\n']) item :=
  load_ok_rows
    ⟨"Item\tQty\tA\tB\n widget \t2\thttp://a/1 \thttp://b/1\nbolt\t7".toList, none⟩
    ["Item\tQty\tA\tB".toList, " widget \t2\thttp://a/1 \thttp://b/1".toList]
    "bolt\t7".toList
    [⟨"widget".toList, 2,
      [⟨['A'], "http://a/1".toList, 0, 0⟩, ⟨['B'], "http://b/1".toList, 0, 0⟩]⟩]
    (by decide) (by decide) (by decide) (by decide)

/-! ## Claims on the price extraction -/

/-- C8. The code at the price text `US$1.15`: `ParseFloat` gives the binary64
value nearest to 1.15, its product with 100 rounds to 114.99999999999999 and
the conversion to `int` truncates it, so the price returned is 114 minor
units, not 115; the shipping text `US$19.99` gives 1998 in the same way. The
text `US$12.34` of the spec's example does give 1234. -/
theorem banggood_cents_truncated :
    GetBanggoodPriceAndShipping (some "US$1.15".toList) none = some ⟨114, 0, none⟩ ∧
    GetBanggoodPriceAndShipping (some "US$12.34".toList) (some "US$19.99".toList)
      = some ⟨1234, 1998, none⟩ := by
  decide!

/-! ## Claims on the state of the records after loading -/

theorem vendors_unset (colNames : List GoString) (urls : List GoString) (i : Nat)
    (vis : List VendorItem) (h : LoadItems.vendors colNames i urls [] = some vis) :
    ∀ v ∈ vis, v.Price = 0 ∧ v.Shipping = 0 := by
  obtain ⟨new, hnew, hlen, hget⟩ := vendors_spec colNames urls i [] vis h
  simp only [List.nil_append] at hnew
  subst hnew
  intro v hv
  obtain ⟨j, hj⟩ := List.getElem?_of_mem hv
  have hjlt : j < urls.length := by
    rw [← hlen]; exact (List.getElem?_eq_some.1 hj).1
  obtain ⟨c, u, _, _, h3⟩ := hget j hjlt
  rw [hj] at h3
  cases h3
  exact ⟨rfl, rfl⟩

theorem loop_unset (lines : List GoString) :
    ∀ (readErr : Option String) (lineNum : Nat) (colNames : List GoString)
      (items0 items : List Item) (err : Option LoadError),
      LoadItems.loop readErr lineNum colNames items0 lines = .ret items err →
      (∀ it ∈ items0, ∀ v ∈ it.VendorItems, v.Price = 0 ∧ v.Shipping = 0) →
      ∀ it ∈ items, ∀ v ∈ it.VendorItems, v.Price = 0 ∧ v.Shipping = 0 := by
  induction lines with
  | nil =>
    intro readErr lineNum colNames items0 items err h h0
    simp only [LoadItems.loop, LoadResult.ret.injEq] at h
    rw [← h.1]; exact h0
  | cons line lines ih =>
    intro readErr lineNum colNames items0 items err h h0
    rw [LoadItems.loop] at h
    simp only at h
    by_cases h3 : (Split '\t' line).length < 3
    · simp only [h3, if_true, LoadResult.ret.injEq] at h
      rw [← h.1]; exact h0
    by_cases h1 : lineNum = 1
    · simp only [h3, h1, if_false, if_true] at h
      exact ih _ _ _ _ _ _ h h0
    · simp only [h3, h1, if_false] at h
      cases hq : ParseInt ((Split '\t' line).getD 1 []) with
      | error e =>
        rw [hq] at h
        simp only [LoadResult.ret.injEq] at h
        rw [← h.1]; exact h0
      | ok qty =>
        rw [hq] at h
        dsimp only at h
        cases hvis : LoadItems.vendors colNames 0 (List.drop 2 (Split '\t' line))
            (NewItem (TrimSpace ((Split '\t' line).getD 0 [])) qty).VendorItems with
        | none => rw [hvis] at h; simp at h
        | some vis =>
          rw [hvis] at h
          dsimp only at h
          refine ih _ _ _ _ _ _ h ?_
          intro it hit
          rw [List.mem_append] at hit
          rcases hit with hit | hit
          · exact h0 it hit
          · simp only [List.mem_singleton] at hit
            subst hit
            exact vendors_unset _ _ _ _ hvis

/-- C11, counterexample. The one vendor record `LoadItems` builds from a
header and one row has price `0` and shipping `0`, not `-1`. -/
theorem loaded_amounts_counterexample :
    LoadItems ⟨"Item\tQty\tA\nnut\t4\thttp://a/n\n".toList, none⟩ =
      .ret [⟨"nut".toList, 4, [⟨['A'], "http://a/n".toList, 0, 0⟩]⟩] none ∧
    (NewVendorItem ['A'] "http://a/n".toList).Price ≠ -1 ∧
    (NewVendorItem ['A'] "http://a/n".toList).Shipping ≠ -1 := by
  decide

/-- C11, amended. Every VendorItem in the result of a successful `LoadItems`
has price `0` and shipping `0`, the zero value `NewVendorItem` leaves in the
two fields, before any fetch result is applied to it. -/
theorem loaded_amounts_unset (r : Reader) (items : List Item)
    (hok : LoadItems r = .ret items none) :
    ∀ it ∈ items, ∀ v ∈ it.VendorItems, v.Price = 0 ∧ v.Shipping = 0 :=
  loop_unset _ _ _ _ _ _ _ hok (fun it hit => by simp at hit)

/-- Witness of C11 (amended): the record of vendor `B` in the second row of a
catalog with two rows and two vendors. -/
theorem loaded_amounts_unset_witness :
    (⟨['B'], "http://b/b".toList, 0, 0⟩ : VendorItem).Price = 0 ∧
    (⟨['B'], "http://b/b".toList, 0, 0⟩ : VendorItem).Shipping = 0 :=
  loaded_amounts_unset
    ⟨"Item\tQty\tA\tB\nnut\t4\thttp://a/n\thttp://b/n\nbolt\t7\thttp://a/b\thttp://b/b\n".toList,
      none⟩
    [⟨"nut".toList, 4,
       [⟨['A'], "http://a/n".toList, 0, 0⟩, ⟨['B'], "http://b/n".toList, 0, 0⟩]⟩,
     ⟨"bolt".toList, 7,
       [⟨['A'], "http://a/b".toList, 0, 0⟩, ⟨['B'], "http://b/b".toList, 0, 0⟩]⟩]
    (by decide)
    ⟨"bolt".toList, 7,
      [⟨['A'], "http://a/b".toList, 0, 0⟩, ⟨['B'], "http://b/b".toList, 0, 0⟩]⟩
    (by decide) ⟨['B'], "http://b/b".toList, 0, 0⟩ (by decide)

/-! ## Claims on vendor detection and on the extraction's failures -/

theorem contains_iff (s substr : GoString) : Contains s substr = true ↔ substr <:+: s := by
  induction s with
  | nil => simp [Contains]
  | cons c cs ih =>
    rw [Contains, Bool.or_eq_true, ih, List.isPrefixOf_iff_prefix, List.infix_cons_iff]

/-- C12. For every URL and every markup that contains neither
`https://www.banggood.com` nor `https://www.aliexpress.com`,
`GetPriceAndShipping` returns price `-1`, shipping `-1` and the error
`unsupported vendor`, whatever the URL and whatever the page parser finds. -/
theorem unsupported_vendor (soup : GoString → PageElems) (url html : GoString)
    (hb : ¬ "https://www.banggood.com".toList <:+: html)
    (ha : ¬ "https://www.aliexpress.com".toList <:+: html) :
    GetPriceAndShipping soup url html = some ⟨-1, -1, some (.unsupportedVendor url)⟩ := by
  have hb' : Contains html "https://www.banggood.com".toList = false := by
    rw [Bool.eq_false_iff]; exact fun h => hb ((contains_iff _ _).1 h)
  have ha' : Contains html "https://www.aliexpress.com".toList = false := by
    rw [Bool.eq_false_iff]; exact fun h => ha ((contains_iff _ _).1 h)
  unfold GetPriceAndShipping
  rw [hb', ha']
  simp

/-- Witness of C12: the URL names a known vendor, the markup names none. -/
theorem unsupported_vendor_witness :
    GetPriceAndShipping (fun _ => ⟨some "US$1.00".toList, none⟩)
        "https://www.banggood.com/p-1.html".toList "<html>404</html>".toList
      = some ⟨-1, -1, some (.unsupportedVendor "https://www.banggood.com/p-1.html".toList)⟩ :=
  unsupported_vendor _ _ _ (by decide) (by decide)

/-- C13. When the text of the main-price element is empty or is exactly
`US$00.00`, `GetBanggoodPriceAndShipping` returns an error with price `-1` and
shipping `-1`, whatever the shipping element; the error for `US$00.00` is not
the one for the empty text nor one of the two numeral parse errors, and its
text differs from theirs. -/
theorem empty_and_zero_price_rejected (shippingEm : Option GoString) :
    GetBanggoodPriceAndShipping (some []) shippingEm = some ⟨-1, -1, some .emptyPrice⟩ ∧
    GetBanggoodPriceAndShipping (some "US$00.00".toList) shippingEm
      = some ⟨-1, -1, some .zeroPrice⟩ ∧
    ExtractError.zeroPrice ≠ ExtractError.emptyPrice ∧
    (∀ priceStr cause, ExtractError.zeroPrice ≠ ExtractError.parsePrice priceStr cause) ∧
    (∀ cause, ExtractError.zeroPrice ≠ ExtractError.parseShipping cause) ∧
    (∀ quoted, ExtractError.text quoted .zeroPrice ≠ ExtractError.text quoted .emptyPrice) ∧
    (∀ quoted priceStr cause,
      ExtractError.text quoted .zeroPrice ≠ ExtractError.text quoted (.parsePrice priceStr cause)) ∧
    (∀ quoted cause,
      ExtractError.text quoted .zeroPrice ≠ ExtractError.text quoted (.parseShipping cause)) := by
  refine ⟨rfl, rfl, ?_, ?_, ?_, ?_, ?_, ?_⟩
  · decide
  · intro priceStr cause h
    cases h
  · intro cause h
    cases h
  · intro quoted h
    have := congrArg (fun t => t.data.head?) h
    simp [ExtractError.text] at this
  · intro quoted priceStr cause h
    have := congrArg (fun t => t.data.head?) h
    simp [ExtractError.text] at this
  · intro quoted cause h
    have := congrArg (fun t => t.data.head?) h
    simp [ExtractError.text, NumError.text] at this

theorem parseFloat_default : ParseFloat "0.00".toList = some (.ok 0) := by
  decide!

theorem toCents_zero : toCents 0 = some 0 := by
  decide!

theorem shipping_absent (price : Int) :
    GetBanggoodPriceAndShipping.shipping price none = some ⟨price, 0, none⟩ := by
  unfold GetBanggoodPriceAndShipping.shipping
  dsimp only
  rw [parseFloat_default]
  dsimp only
  rw [toCents_zero]

theorem shipping_empty (price : Int) :
    GetBanggoodPriceAndShipping.shipping price (some []) = some ⟨price, 0, none⟩ := by
  unfold GetBanggoodPriceAndShipping.shipping
  dsimp only
  rw [if_neg (fun h => h rfl), parseFloat_default]
  dsimp only
  rw [toCents_zero]

theorem shipping_price (price : Int) (shippingEm : Option GoString) (res : Extracted)
    (h : GetBanggoodPriceAndShipping.shipping price shippingEm = some res)
    (herr : res.err = none) : res.price = price := by
  unfold GetBanggoodPriceAndShipping.shipping at h
  simp only at h
  split at h
  · exact absurd h (by simp)
  · simp only [Option.some.injEq] at h
    rw [← h] at herr
    simp at herr
  · split at h
    · exact absurd h (by simp)
    · simp only [Option.some.injEq] at h
      rw [← h]

/-- C14. When the main-price element is present and its text parses to the
price `price`, and the shipping element is absent or has empty text,
`GetBanggoodPriceAndShipping` returns `price`, shipping `0` and no error; and
`price` is the price of every result without error, whatever the shipping
element. The shipping half of the function returns shipping `0` without error
for every price handed to it. -/
theorem shipping_defaults_to_zero (priceStr : GoString) (f : Nat) (price : Int)
    (hne : priceStr ≠ []) (hnz : priceStr ≠ "US$00.00".toList)
    (hparse : ParseFloat (TrimPrefix priceStr "US$".toList) = some (.ok f))
    (hcents : toCents f = some price) :
    GetBanggoodPriceAndShipping (some priceStr) none = some ⟨price, 0, none⟩ ∧
    GetBanggoodPriceAndShipping (some priceStr) (some []) = some ⟨price, 0, none⟩ ∧
    (∀ shippingEm res, GetBanggoodPriceAndShipping (some priceStr) shippingEm = some res →
      res.err = none → res.price = price) ∧
    (∀ p : Int, GetBanggoodPriceAndShipping.shipping p none = some ⟨p, 0, none⟩ ∧
      GetBanggoodPriceAndShipping.shipping p (some []) = some ⟨p, 0, none⟩) := by
  have hred : ∀ shippingEm, GetBanggoodPriceAndShipping (some priceStr) shippingEm =
      GetBanggoodPriceAndShipping.shipping price shippingEm := by
    intro shippingEm
    simp only [GetBanggoodPriceAndShipping, hne, hnz, if_false]
    rw [hparse]
    simp only
    rw [hcents]
  refine ⟨?_, ?_, ?_, fun p => ⟨shipping_absent p, shipping_empty p⟩⟩
  · rw [hred, shipping_absent]
  · rw [hred, shipping_empty]
  · intro shippingEm res h herr
    rw [hred] at h
    exact shipping_price price shippingEm res h herr

/-- Witness of C14: the price text of the spec's example. -/
theorem shipping_defaults_to_zero_witness :
    GetBanggoodPriceAndShipping (some "US$12.34".toList) none = some ⟨1234, 0, none⟩ ∧
    GetBanggoodPriceAndShipping (some "US$12.34".toList) (some []) = some ⟨1234, 0, none⟩ ∧
    (∀ shippingEm res,
      GetBanggoodPriceAndShipping (some "US$12.34".toList) shippingEm = some res →
      res.err = none → res.price = 1234) ∧
    (∀ p : Int, GetBanggoodPriceAndShipping.shipping p none = some ⟨p, 0, none⟩ ∧
      GetBanggoodPriceAndShipping.shipping p (some []) = some ⟨p, 0, none⟩) :=
  shipping_defaults_to_zero "US$12.34".toList
    (roundBinary64 (1234 * 2 ^ 1074) (10 ^ 2)) 1234
    (by decide) (by decide) (by decide!) (by decide!)

/-! ## Claims on the fetch worker -/

/-- C15. The code on a job whose `chromedp.Run` fails with the error `e`: the
loop body of `chromeBrowser` sends two results for the job, first the one
carrying the error and no markup, then one without error carrying the content
of `html`; nothing keeps the second send from running after the first. On a
job whose `chromedp.Run` succeeds it sends one result. -/
theorem failed_job_sent_twice (job : BrowserJob) (html : GoString) (e : String) :
    chromeBrowser.body job ⟨html, some e⟩ =
      [{ Job := job, HTML := [], Err := some e }, { Job := job, HTML := html, Err := none }] ∧
    (chromeBrowser (fun _ => ⟨html, some e⟩) [some job]).length = 2 ∧
    chromeBrowser.body job ⟨html, none⟩ = [{ Job := job, HTML := html, Err := none }] := by
  refine ⟨rfl, rfl, rfl⟩

/-! ## Claims on the report -/

theorem wrap64_add (a b : Int) : wrap64 (wrap64 a + wrap64 b) = wrap64 (a + b) := by
  unfold wrap64; omega

theorem wrap64_of_fits (a : Int) (h1 : -9223372036854775808 ≤ a)
    (h2 : a ≤ 9223372036854775807) : wrap64 a = a := by
  unfold wrap64; omega

theorem priceSum_append (a b : List (Int × VendorItem)) :
    priceSum (a ++ b) = priceSum a + priceSum b := by
  simp [priceSum, List.filter_append, List.map_append, List.sum_append]

theorem shippingSum_append (a b : List (Int × VendorItem)) :
    shippingSum (a ++ b) = shippingSum a + shippingSum b := by
  simp [shippingSum, List.filter_append, List.map_append, List.sum_append]

theorem row_unresolved (quantity : Int) (totals : Int × Int) (v : VendorItem)
    (h : v.Price = -1) : main.row quantity totals v = totals := by
  simp [main.row, h]

theorem row_totals (quantity x y : Int) (v : VendorItem) :
    main.row quantity (wrap64 x, wrap64 y) v =
      (wrap64 (x + priceSum [(quantity, v)]), wrap64 (y + shippingSum [(quantity, v)])) := by
  by_cases hp : v.Price = -1
  · simp [main.row, hp, priceSum, shippingSum]
  · by_cases hs : v.Shipping > -1
    · simp only [main.row, hp, hs, priceSum, shippingSum, if_true, if_false]
      simp only [ne_eq, hp, not_false_eq_true, decide_True, List.filter_cons_of_pos,
        List.filter_nil, List.map_cons, List.map_nil, List.sum_cons, List.sum_nil, add_zero,
        hs, and_self]
      generalize v.Price * quantity = a
      generalize v.Shipping * quantity = b
      unfold wrap64
      refine Prod.ext ?_ ?_ <;> simp only <;> omega
    · simp only [main.row, hp, hs, priceSum, shippingSum, if_true, if_false]
      simp only [ne_eq, hp, not_false_eq_true, decide_True, List.filter_cons_of_pos,
        List.filter_nil, List.map_cons, List.map_nil, List.sum_cons, List.sum_nil, add_zero,
        hs, and_false, decide_False, Bool.false_eq_true, List.filter_cons_of_neg]
      generalize v.Price * quantity = a
      unfold wrap64
      refine Prod.ext ?_ rfl
      simp only
      omega

theorem inner_totals (quantity : Int) (vis : List VendorItem) :
    ∀ x y : Int, vis.foldl (main.row quantity) (wrap64 x, wrap64 y) =
      (wrap64 (x + priceSum (vis.map (fun v => (quantity, v)))),
        wrap64 (y + shippingSum (vis.map (fun v => (quantity, v))))) := by
  induction vis with
  | nil => intro x y; simp [priceSum, shippingSum]
  | cons v vs ih =>
    intro x y
    rw [List.foldl_cons, row_totals, ih]
    have hcons : List.map (fun v => (quantity, v)) (v :: vs) =
        [(quantity, v)] ++ List.map (fun v => (quantity, v)) vs := rfl
    rw [hcons, priceSum_append, shippingSum_append, Int.add_assoc, Int.add_assoc]

theorem outer_totals (items : List Item) :
    ∀ x y : Int,
      items.foldl (fun totals item => item.VendorItems.foldl (main.row item.Quantity) totals)
          (wrap64 x, wrap64 y) =
        (wrap64 (x + priceSum (reportRows items)),
          wrap64 (y + shippingSum (reportRows items))) := by
  induction items with
  | nil => intro x y; simp [reportRows, priceSum, shippingSum]
  | cons item items ih =>
    intro x y
    rw [List.foldl_cons, inner_totals, ih]
    simp only [reportRows, priceSum_append, shippingSum_append, Int.add_assoc]

/-- C16, counterexample. One row of price `2^62`, shipping `0` and quantity `3`:
the accumulated price total is `-2^62`, not the sum `3 · 2^62` of price ×
quantity, because the product of `int` wraps around. -/
theorem report_totals_overflow_counterexample :
    main.totals [⟨[], 3, [priced 4611686018427387904 0]⟩] = (-4611686018427387904, 0) ∧
    priceSum (reportRows [⟨[], 3, [priced 4611686018427387904 0]⟩])
      = 13835058055282163712 ∧
    (main.totals [⟨[], 3, [priced 4611686018427387904 0]⟩]).1 ≠
      priceSum (reportRows [⟨[], 3, [priced 4611686018427387904 0]⟩]) := by
  decide

/-- C16, amended. In the report of `main`: the accumulated price total is the
sum of price × quantity over the rows whose price is not `-1`, wrapped into
the range of `int`; the accumulated shipping total is the sum of shipping ×
quantity over the rows whose price is not `-1` and whose shipping is greater
than `-1`, wrapped likewise; each is the sum itself when the sum lies between
`-2^63` and `2^63 - 1`; a row of price `-1` leaves both totals as they are; and
the amount of the Grand Total row is the price total plus the shipping total,
wrapped likewise. -/
theorem report_totals (items : List Item) :
    main.totals items =
      (wrap64 (priceSum (reportRows items)), wrap64 (shippingSum (reportRows items))) ∧
    (-9223372036854775808 ≤ priceSum (reportRows items) →
      priceSum (reportRows items) ≤ 9223372036854775807 →
      (main.totals items).1 = priceSum (reportRows items)) ∧
    (-9223372036854775808 ≤ shippingSum (reportRows items) →
      shippingSum (reportRows items) ≤ 9223372036854775807 →
      (main.totals items).2 = shippingSum (reportRows items)) ∧
    (∀ (quantity : Int) (totals : Int × Int) (v : VendorItem),
      v.Price = -1 → main.row quantity totals v = totals) ∧
    main.grandTotal items = wrap64 ((main.totals items).1 + (main.totals items).2) ∧
    main.grandTotal items =
      wrap64 (priceSum (reportRows items) + shippingSum (reportRows items)) := by
  have h : main.totals items =
      (wrap64 (priceSum (reportRows items)), wrap64 (shippingSum (reportRows items))) := by
    have h0 : ((0 : Int), (0 : Int)) = (wrap64 0, wrap64 0) := by decide
    unfold main.totals
    rw [h0, outer_totals]
    simp
  refine ⟨h, ?_, ?_, row_unresolved, rfl, ?_⟩
  · intro h1 h2
    rw [h]
    exact wrap64_of_fits _ h1 h2
  · intro h1 h2
    rw [h]
    exact wrap64_of_fits _ h1 h2
  · unfold main.grandTotal
    rw [h]
    exact wrap64_add _ _

/-- C17. The code on the amount 1234: the expression `float64(c/100.0)` divides
the `int` by 100 as an integer, so the value printed with `%0.2f` is `12.00`,
not `12.34`; the cents are lost for every amount that is not a multiple of
100. The amounts 500 and 100 do print as `5.00` and `1.00`. -/
theorem report_amount_truncated :
    formatCents 1234 = "12.00" ∧ formatCents 1299 = "12.00" ∧ formatCents 99 = "0.00" ∧
    formatCents 500 = "5.00" ∧ formatCents 100 = "1.00" := by
  decide

/-! ## Claims on the loader's reading of the input -/

theorem readLines_append_tail (s t : GoString) (ht : '\n' ∉ t) :
    readLines (s ++ t) = readLines s := by
  induction s with
  | nil => simpa [readLines] using readLines_of_not_mem t ht
  | cons c cs ih =>
    by_cases hc : c = '\n'
    · simp [readLines, hc, ih]
    · simp [readLines, hc, ih]

/-- C19. `LoadItems` ignores a final line that is not terminated by a
newline: for every input text `s` and every text `t` without newline,
`LoadItems` returns on `s ++ t` what it returns on `s`, items and error
alike. -/
theorem unterminated_tail_ignored (s t : GoString) (readErr : Option String)
    (ht : '\n' ∉ t) :
    LoadItems ⟨s ++ t, readErr⟩ = LoadItems ⟨s, readErr⟩ := by
  unfold LoadItems
  simp only
  rw [readLines_append_tail s t ht]

/-- Witness of C19: the unterminated last row has a single field. -/
theorem unterminated_tail_ignored_witness :
    LoadItems ⟨"Item\tQty\tA\nnut\t4\thttp://a/n\n".toList ++ "bolt".toList, none⟩ =
      LoadItems ⟨"Item\tQty\tA\nnut\t4\thttp://a/n\n".toList, none⟩ :=
  unterminated_tail_ignored _ _ _ (by decide)

theorem vendors_in_bounds (colNames : List GoString) (urls : List GoString) :
    ∀ (i : Nat) (acc : List VendorItem), i + urls.length + 2 ≤ colNames.length →
      ∃ vis, LoadItems.vendors colNames i urls acc = some vis := by
  induction urls with
  | nil => intro i acc _; exact ⟨acc, rfl⟩
  | cons url urls ih =>
    intro i acc h
    simp only [List.length_cons] at h
    have hlt : i + 2 < colNames.length := by omega
    rw [LoadItems.vendors, List.getElem?_eq_getElem hlt]
    exact ih (i + 1) _ (by omega)

theorem loop_returns (lines : List GoString) :
    ∀ (readErr : Option String) (lineNum : Nat) (colNames : List GoString)
      (items0 : List Item), 2 ≤ lineNum →
      (∀ line ∈ lines, (Split '\t' line).length ≤ colNames.length) →
      ∃ items err, LoadItems.loop readErr lineNum colNames items0 lines = .ret items err := by
  induction lines with
  | nil =>
    intro readErr lineNum colNames items0 _ _
    exact ⟨items0, _, rfl⟩
  | cons line lines ih =>
    intro readErr lineNum colNames items0 h2 hw
    have h1 : lineNum ≠ 1 := by omega
    have hline := hw line (List.mem_cons_self _ _)
    have hrest : ∀ l ∈ lines, (Split '\t' l).length ≤ colNames.length :=
      fun l hl => hw l (List.mem_cons_of_mem _ hl)
    rw [LoadItems.loop]
    simp only
    by_cases h3 : (Split '\t' line).length < 3
    · exact ⟨items0, _, by rw [if_pos h3]⟩
    simp only [h3, h1, if_false]
    cases hq : ParseInt ((Split '\t' line).getD 1 []) with
    | error e => exact ⟨items0, _, rfl⟩
    | ok qty =>
      dsimp only
      obtain ⟨vis, hvis⟩ := vendors_in_bounds colNames (List.drop 2 (Split '\t' line)) 0
        (NewItem (TrimSpace ((Split '\t' line).getD 0 [])) qty).VendorItems
        (by rw [List.length_drop]; omega)
      rw [hvis]
      exact ih readErr (lineNum + 1) colNames _ (by omega) hrest

/-- C20. For every input in which no data row has more tab-separated fields
than the header row, every lookup `colNames[i+2]` of `LoadItems` is in bounds:
the call returns, with the items and an error or `nil`, and does not panic. -/
theorem narrow_rows_no_panic (r : Reader) (bodies : List GoString) (tail : GoString)
    (hdata : r.data = joinLines bodies ++ tail)
    (hb : ∀ b ∈ bodies, '\n' ∉ b) (ht : '\n' ∉ tail)
    (hnarrow : ∀ header rows, bodies = header :: rows → ∀ row ∈ rows,
      (Split '\t' (row ++ ['\n'])).length ≤ (Split '\t' (header ++ ['\n'])).length) :
    (∃ items err, LoadItems r = .ret items err) ∧ LoadItems r ≠ .panic := by
  have hret : ∃ items err, LoadItems r = .ret items err := by
    unfold LoadItems
    rw [hdata, readLines_joinLines bodies tail hb, readLines_of_not_mem tail ht,
      List.append_nil]
    cases bodies with
    | nil => exact ⟨[], _, rfl⟩
    | cons header rows =>
      rw [List.map_cons, LoadItems.loop]
      simp only
      by_cases h3 : (Split '\t' (header ++ ['\n'])).length < 3
      · exact ⟨[], _, by rw [if_pos h3]⟩
      simp only [h3, if_false, if_true, List.nil_append]
      apply loop_returns _ _ (1 + 1) _ _ (by omega)
      intro line hline
      rw [List.mem_map] at hline
      obtain ⟨row, hrow, rfl⟩ := hline
      exact hnarrow header rows rfl row hrow
  refine ⟨hret, ?_⟩
  obtain ⟨items, err, h⟩ := hret
  rw [h]
  exact fun h' => by cases h'

/-- Witness of C20: a row with fewer fields than the header. -/
theorem narrow_rows_no_panic_witness :
    (∃ items err,
      LoadItems ⟨"Item\tQty\tA\tB\nnut\t4\thttp://a/n\n".toList, none⟩ = .ret items err) ∧
    LoadItems ⟨"Item\tQty\tA\tB\nnut\t4\thttp://a/n\n".toList, none⟩ ≠ .panic :=
  narrow_rows_no_panic ⟨"Item\tQty\tA\tB\nnut\t4\thttp://a/n\n".toList, none⟩
    ["Item\tQty\tA\tB".toList, "nut\t4\thttp://a/n".toList] [] (by decide) (by decide) (by decide)
    (fun header rows h => by cases h; decide)

/-- A row with more fields than the header: the lookup `colNames[i+2]` of line
97 is out of range and `LoadItems` panics. -/
theorem wide_row_panics :
    LoadItems ⟨"Item\tQty\tA\nnut\t4\thttp://a/n\thttp://b/n\n".toList, none⟩ = .panic := by
  decide

/-! ## Claims on the result correlator -/

theorem lookup_mem {k v : Nat} : ∀ {l : List (Nat × Nat)}, l.lookup k = some v → (k, v) ∈ l
  | [], h => by simp at h
  | (k', v') :: l, h => by
    rw [List.lookup_cons] at h
    by_cases hk : k = k'
    · subst hk
      simp only [beq_self_eq_true, Option.some.injEq] at h
      subst h
      exact List.mem_cons_self _ _
    · have hb : (k == k') = false := by simpa using hk
      rw [hb] at h
      exact List.mem_cons_of_mem _ (lookup_mem h)

theorem lookup_filter_ne (l : List (Nat × Nat)) {k a : Nat} (h : k ≠ a) :
    (l.filter (fun entry => entry.1 != a)).lookup k = l.lookup k := by
  induction l with
  | nil => rfl
  | cons en l ih =>
    obtain ⟨x, y⟩ := en
    by_cases hx : x = a
    · subst hx
      have hkx : (k == x) = false := by simpa using h
      simp [List.filter_cons, List.lookup_cons, hkx, ih]
    · by_cases hk : k = x
      · subst hk
        simp [List.filter_cons, List.lookup_cons, hx]
      · have hkx : (k == x) = false := by simpa using hk
        simp [List.filter_cons, List.lookup_cons, hx, hkx, ih]

theorem lookup_filter_self (l : List (Nat × Nat)) (a : Nat) :
    (l.filter (fun entry => entry.1 != a)).lookup a = none := by
  rw [List.lookup_eq_none_iff]
  intro en hen
  have := (List.mem_filter.1 hen).2
  simp only [bne_iff_ne, ne_eq] at this ⊢
  exact fun h => this h.symm

theorem filter_of_lookup_none (l : List (Nat × Nat)) (a : Nat) (h : l.lookup a = none) :
    l.filter (fun entry => entry.1 != a) = l := by
  rw [List.filter_eq_self]
  intro en hen
  have := (List.lookup_eq_none_iff.1 h) en hen
  simp only [bne_iff_ne, ne_eq] at this ⊢
  exact fun h' => this h'.symm

theorem getPrice_no_markup (soup : GoString → PageElems) (url : GoString) :
    GetPriceAndShipping soup url [] = some ⟨-1, -1, some (.unsupportedVendor url)⟩ := by
  have hb : Contains [] "https://www.banggood.com".toList = false := by decide
  have ha : Contains [] "https://www.aliexpress.com".toList = false := by decide
  unfold GetPriceAndShipping
  rw [hb, ha]
  simp

theorem setAmounts_self {vis : List VendorItem} {mi : Nat} {v : VendorItem}
    (hv : vis[mi]? = some v) (price shipping : Int) :
    (setAmounts vis mi price shipping)[mi]? =
      some { v with Price := price, Shipping := shipping } := by
  unfold setAmounts
  rw [hv]
  exact List.getElem?_set_self (List.getElem?_eq_some.1 hv).1

theorem setAmounts_ne (vis : List VendorItem) {mi mi' : Nat} (h : mi' ≠ mi)
    (price shipping : Int) : (setAmounts vis mi' price shipping)[mi]? = vis[mi]? := by
  unfold setAmounts
  cases vis[mi']? with
  | none => rfl
  | some v => exact List.getElem?_set_ne h

theorem setAmounts_length (vis : List VendorItem) (mi : Nat) (price shipping : Int) :
    (setAmounts vis mi price shipping).length = vis.length := by
  unfold setAmounts
  cases vis[mi]? with
  | none => rfl
  | some v => exact List.length_set _ _ _

theorem Same.trans {mi : Nat} {a b c : Correlator} (h1 : Same mi a b) (h2 : Same mi b c) :
    Same mi a c :=
  ⟨h2.1.trans h1.1, h2.2.1.trans h1.2.1, h2.2.2.trans h1.2.2⟩

theorem insert_tidy {n : Nat} {st : Correlator} {job : BrowserJob} {m : Nat}
    (ht : Tidy n st) (haddr : job.addr = m) : Tidy n (st.insert job m) := by
  refine ⟨?_, ht.2⟩
  intro en hen
  simp only [Correlator.insert, List.mem_cons] at hen
  rcases hen with rfl | hen
  · exact haddr
  · exact ht.1 en (List.mem_filter.1 hen).1

theorem step_tidy (soup : GoString → PageElems)
    (beyond : GoString → GoString → PriceAndShipping) {n : Nat} {st : Correlator}
    (r : BrowserJobResult) (ht : Tidy n st) : Tidy n (Correlator.step soup beyond st r) := by
  have hfilter : ∀ en ∈ st.jobsInProgress.filter (fun en => en.1 != r.Job.addr),
      en.1 = en.2 := fun en hen => ht.1 en (List.mem_filter.1 hen).1
  unfold Correlator.step
  dsimp only
  cases st.jobsInProgress.lookup r.Job.addr with
  | none => exact ⟨hfilter, ht.2⟩
  | some m =>
    refine ⟨hfilter, ?_⟩
    simp only [setAmounts_length]
    exact ht.2

theorem insert_same {n mi : Nat} {st : Correlator} {job : BrowserJob} {m : Nat}
    (ht : Tidy n st) (haddr : job.addr = m) (hne : m ≠ mi) :
    Tidy n (st.insert job m) ∧ Same mi st (st.insert job m) := by
  refine ⟨⟨?_, ht.2⟩, rfl, rfl, ?_⟩
  · intro en hen
    simp only [Correlator.insert, List.mem_cons] at hen
    rcases hen with rfl | hen
    · exact haddr
    · exact ht.1 en (List.mem_filter.1 hen).1
  · simp only [Correlator.insert, List.lookup_cons]
    have hb : (mi == job.addr) = false := by
      rw [haddr]; simpa using fun h : mi = m => hne h.symm
    rw [hb]
    exact lookup_filter_ne _ (by rw [haddr]; exact fun h => hne h.symm)

theorem step_same (soup : GoString → PageElems)
    (beyond : GoString → GoString → PriceAndShipping) {n mi : Nat} {st : Correlator}
    (r : BrowserJobResult) (ht : Tidy n st)
    (h : r.Job.addr ≠ mi ∨ st.jobsInProgress.lookup mi = none) :
    Tidy n (Correlator.step soup beyond st r) ∧
      Same mi st (Correlator.step soup beyond st r) := by
  have hfilter : ∀ en ∈ st.jobsInProgress.filter (fun en => en.1 != r.Job.addr),
      en.1 = en.2 := fun en hen => ht.1 en (List.mem_filter.1 hen).1
  have hlook : (st.jobsInProgress.filter (fun en => en.1 != r.Job.addr)).lookup mi =
      st.jobsInProgress.lookup mi := by
    by_cases hr : r.Job.addr = mi
    · rcases h with h | h
      · exact absurd hr h
      · rw [hr, lookup_filter_self, h]
    · exact lookup_filter_ne _ (fun h' => hr h'.symm)
  unfold Correlator.step
  dsimp only
  cases hl : st.jobsInProgress.lookup r.Job.addr with
  | none => exact ⟨⟨hfilter, ht.2⟩, rfl, rfl, hlook⟩
  | some m =>
    dsimp only
    have hm : r.Job.addr = m := ht.1 _ (lookup_mem hl)
    have hne : m ≠ mi := by
      rcases h with h | h
      · rw [← hm]; exact h
      · intro hmi
        rw [← hmi, ← hm, hl] at h
        exact Option.noConfusion h
    refine ⟨⟨hfilter, ?_⟩, ?_, ?_, hlook⟩
    · simp only [setAmounts_length]; exact ht.2
    · exact setAmounts_ne _ hne _ _
    · simp only [List.count_append]
      simp [List.count_cons, hne]

theorem quiet_run (soup : GoString → PageElems)
    (beyond : GoString → GoString → PriceAndShipping) {n mi : Nat} (events : List Event) :
    ∀ st : Correlator, Tidy n st → (∀ ev ∈ events, Quiet n mi ev) →
      Tidy n (Correlator.run soup beyond st events) ∧
        Same mi st (Correlator.run soup beyond st events) := by
  induction events with
  | nil => intro st ht _; exact ⟨ht, rfl, rfl, rfl⟩
  | cons ev events ih =>
    intro st ht hq
    have hev := hq ev (List.mem_cons_self _ _)
    have hrest : ∀ e ∈ events, Quiet n mi e := fun e he => hq e (List.mem_cons_of_mem _ he)
    have h1 : Tidy n (Correlator.apply soup beyond st ev) ∧
        Same mi st (Correlator.apply soup beyond st ev) := by
      cases ev with
      | insert job m => exact insert_same ht hev.1 hev.2.2
      | result r => exact step_same soup beyond r ht (Or.inl hev)
    obtain ⟨h2, h3⟩ := ih _ h1.1 hrest
    exact ⟨h2, h1.2.trans h3⟩

theorem foreign_run (soup : GoString → PageElems)
    (beyond : GoString → GoString → PriceAndShipping) {n mi : Nat} (events : List Event) :
    ∀ st : Correlator, Tidy n st → st.jobsInProgress.lookup mi = none →
      (∀ ev ∈ events, Foreign n mi ev) →
      Tidy n (Correlator.run soup beyond st events) ∧
        Same mi st (Correlator.run soup beyond st events) := by
  induction events with
  | nil => intro st ht _ _; exact ⟨ht, rfl, rfl, rfl⟩
  | cons ev events ih =>
    intro st ht hnone hq
    have hev := hq ev (List.mem_cons_self _ _)
    have hrest : ∀ e ∈ events, Foreign n mi e := fun e he => hq e (List.mem_cons_of_mem _ he)
    have h1 : Tidy n (Correlator.apply soup beyond st ev) ∧
        Same mi st (Correlator.apply soup beyond st ev) := by
      cases ev with
      | insert job m => exact insert_same ht hev.1 hev.2.2
      | result r => exact step_same soup beyond r ht (Or.inr hnone)
    obtain ⟨h2, h3⟩ := ih _ h1.1 (h1.2.2.2.trans hnone) hrest
    exact ⟨h2, h1.2.trans h3⟩

theorem step_orphan (soup : GoString → PageElems)
    (beyond : GoString → GoString → PriceAndShipping) (st : Correlator)
    (r : BrowserJobResult) (h : st.jobsInProgress.lookup r.Job.addr = none) :
    Correlator.step soup beyond st r = st := by
  unfold Correlator.step
  dsimp only
  rw [h, filter_of_lookup_none _ _ h]

theorem dispatchFrom_mem (vis : List VendorItem) :
    ∀ (k : Nat) (job : BrowserJob) (m : Nat), (job, m) ∈ dispatchFrom k vis →
      job.addr = m ∧ k ≤ m ∧ m < k + vis.length := by
  induction vis with
  | nil => intro k job m h; simp [dispatchFrom] at h
  | cons v vs ih =>
    intro k job m h
    simp only [dispatchFrom, List.mem_cons, Prod.mk.injEq] at h
    rcases h with ⟨rfl, rfl⟩ | h
    · exact ⟨rfl, Nat.le_refl _, by simp⟩
    · obtain ⟨h1, h2, h3⟩ := ih _ _ _ h
      exact ⟨h1, by omega, by simp only [List.length_cons]; omega⟩

theorem dispatchFrom_pairwise (vis : List VendorItem) :
    ∀ k : Nat, (dispatchFrom k vis).Pairwise (fun a b => a.2 ≠ b.2) := by
  induction vis with
  | nil => intro k; exact List.Pairwise.nil
  | cons v vs ih =>
    intro k
    refine List.Pairwise.cons ?_ (ih (k + 1))
    intro en hen
    obtain ⟨job, m⟩ := en
    have := (dispatchFrom_mem vs (k + 1) job m hen).2.1
    simp only [ne_eq]
    omega

theorem insertsOf_append (as bs : List Event) :
    insertsOf (as ++ bs) = insertsOf as ++ insertsOf bs := by
  induction as with
  | nil => rfl
  | cons ev as ih =>
    cases ev with
    | insert job m => simp [insertsOf, ih]
    | result r => simp [insertsOf, ih]

theorem mem_insertsOf {job : BrowserJob} {m : Nat} :
    ∀ {events : List Event}, Event.insert job m ∈ events ↔ (job, m) ∈ insertsOf events
  | [] => by simp [insertsOf]
  | ev :: events => by
    have ih := @mem_insertsOf job m events
    cases ev with
    | insert job' m' => simp [insertsOf, ih]
    | result r => simp [insertsOf, ih]

theorem run_append (soup : GoString → PageElems)
    (beyond : GoString → GoString → PriceAndShipping) (st : Correlator)
    (as bs : List Event) :
    Correlator.run soup beyond st (as ++ bs) =
      Correlator.run soup beyond (Correlator.run soup beyond st as) bs := by
  unfold Correlator.run
  exact List.foldl_append _ _ _ _

theorem run_cons (soup : GoString → PageElems)
    (beyond : GoString → GoString → PriceAndShipping) (st : Correlator)
    (ev : Event) (events : List Event) :
    Correlator.run soup beyond st (ev :: events) =
      Correlator.run soup beyond (Correlator.apply soup beyond st ev) events := rfl

theorem quiet_of {n mi : Nat} (events : List Event)
    (hgood : ∀ job m, (job, m) ∈ insertsOf events → job.addr = m ∧ m < n ∧ m ≠ mi)
    (hres : ∀ ev ∈ events, ev.resultFor mi = false) : ∀ ev ∈ events, Quiet n mi ev := by
  intro ev hev
  cases ev with
  | insert job m => exact hgood job m (mem_insertsOf.1 hev)
  | result r =>
    have := hres _ hev
    simpa [Event.resultFor, Quiet] using this

theorem foreign_of {n mi : Nat} (events : List Event)
    (hgood : ∀ job m, (job, m) ∈ insertsOf events → job.addr = m ∧ m < n ∧ m ≠ mi) :
    ∀ ev ∈ events, Foreign n mi ev := by
  intro ev hev
  cases ev with
  | insert job m => exact hgood job m (mem_insertsOf.1 hev)
  | result r => exact trivial

theorem step_first (soup : GoString → PageElems)
    (beyond : GoString → GoString → PriceAndShipping) (st : Correlator) (job : BrowserJob)
    (mi : Nat) (e : String) (h : st.jobsInProgress.lookup job.addr = some mi) :
    Correlator.step soup beyond st { Job := job, HTML := [], Err := some e } =
      { jobsInProgress := st.jobsInProgress.filter (fun entry => entry.1 != job.addr)
        vendorItems := setAmounts st.vendorItems mi (-1) (-1)
        written := st.written ++ [mi] } := by
  unfold Correlator.step
  dsimp only
  rw [h]
  dsimp only
  rw [getPrice_no_markup]
  rfl

/-- C18. The dispatcher has inserted the entry of `job` for the record at `mi`
among the events `pre`, which hold no result of `job`; the render of `job`
fails with the error `e`, and the loop over `results` processes the two
results the worker sends for it in the order sent, with the events `mid` in
between; the insertions in `pre` and `mid` are those of the dispatcher for the
catalog `items`, in its order. Then, after the second result: the record at
`mi` is the record of the catalog with price `-1` and shipping `-1`, the table
has no entry for `job`, the record has been written exactly once, the second
result has changed nothing, and every further result for `job` leaves the
whole state as it is. -/
theorem failed_render_settled (soup : GoString → PageElems)
    (beyond : GoString → GoString → PriceAndShipping) (items : List Item)
    (pre mid : List Event) (job : BrowserJob) (mi : Nat) (html : GoString) (e : String)
    (hsched : (insertsOf (pre ++ mid)).Sublist (dispatch items))
    (hins : Event.insert job mi ∈ pre)
    (hfirst : ∀ ev ∈ pre, ev.resultFor job.addr = false) :
    chromeBrowser.body job ⟨html, some e⟩ =
      [{ Job := job, HTML := [], Err := some e }, { Job := job, HTML := html, Err := none }] ∧
    ∃ v, (catalog items)[mi]? = some v ∧
      (LookupVendorPrices.after soup beyond items
        (pre ++ (Event.result { Job := job, HTML := [], Err := some e } ::
          (mid ++ [Event.result { Job := job, HTML := html, Err := none }])))).vendorItems[mi]?
        = some { v with Price := -1, Shipping := -1 } ∧
      (LookupVendorPrices.after soup beyond items
        (pre ++ (Event.result { Job := job, HTML := [], Err := some e } ::
          (mid ++ [Event.result { Job := job, HTML := html, Err := none }])))).jobsInProgress.lookup
        job.addr = none ∧
      (LookupVendorPrices.after soup beyond items
        (pre ++ (Event.result { Job := job, HTML := [], Err := some e } ::
          (mid ++ [Event.result { Job := job, HTML := html, Err := none }])))).written.count mi
        = 1 ∧
      LookupVendorPrices.after soup beyond items
        (pre ++ (Event.result { Job := job, HTML := [], Err := some e } ::
          (mid ++ [Event.result { Job := job, HTML := html, Err := none }]))) =
        LookupVendorPrices.after soup beyond items
          (pre ++ (Event.result { Job := job, HTML := [], Err := some e } :: mid)) ∧
      ∀ r : BrowserJobResult, r.Job.addr = job.addr →
        Correlator.step soup beyond
          (LookupVendorPrices.after soup beyond items
            (pre ++ (Event.result { Job := job, HTML := [], Err := some e } ::
              (mid ++ [Event.result { Job := job, HTML := html, Err := none }])))) r =
        LookupVendorPrices.after soup beyond items
          (pre ++ (Event.result { Job := job, HTML := [], Err := some e } ::
            (mid ++ [Event.result { Job := job, HTML := html, Err := none }]))) := by
  refine ⟨rfl, ?_⟩
  -- what the schedule says about the insertions
  have hsub : ∀ x ∈ insertsOf (pre ++ mid), x ∈ dispatch items := fun x hx => hsched.subset hx
  have hpw := (dispatchFrom_pairwise (catalog items) 0).sublist hsched
  obtain ⟨pa, pb, rfl⟩ := List.append_of_mem hins
  have hjob := dispatchFrom_mem (catalog items) 0 job mi
    (hsub _ (by simp [insertsOf_append, insertsOf]))
  obtain ⟨haddr, _, hlt⟩ := hjob
  simp only [Nat.zero_add] at hlt
  simp only [insertsOf_append, insertsOf, List.append_assoc, List.cons_append] at hpw hsub
  rw [List.pairwise_append] at hpw
  obtain ⟨_, hpw2, hpa⟩ := hpw
  rw [List.pairwise_cons] at hpw2
  obtain ⟨hrest, _⟩ := hpw2
  have hgood : ∀ (events : List Event), (∀ x ∈ insertsOf events, x ∈ dispatch items) →
      (∀ x ∈ insertsOf events, x.2 ≠ mi) →
      ∀ j m, (j, m) ∈ insertsOf events →
        j.addr = m ∧ m < (catalog items).length ∧ m ≠ mi := by
    intro events h1 h2 j m hjm
    obtain ⟨g1, _, g3⟩ := dispatchFrom_mem (catalog items) 0 j m (h1 _ hjm)
    exact ⟨g1, by simpa using g3, h2 _ hjm⟩
  have hgpa := hgood pa (fun x hx => hsub x (by simp [hx]))
    (fun x hx => hpa x hx (job, mi) (by simp))
  have hgpb := hgood pb (fun x hx => hsub x (by simp [hx]))
    (fun x hx => fun h => hrest x (by simp [hx]) h.symm)
  have hgmid := hgood mid (fun x hx => hsub x (by simp [hx]))
    (fun x hx => fun h => hrest x (by simp [hx]) h.symm)
  have hfirst' : ∀ ev ∈ pa ++ Event.insert job mi :: pb, ev.resultFor mi = false := by
    intro ev hev
    rw [← haddr]
    exact hfirst ev hev
  have hqa := quiet_of pa hgpa (fun ev hev => hfirst' ev (by simp [hev]))
  have hqb := quiet_of pb hgpb (fun ev hev => hfirst' ev (by simp [hev]))
  have hfm := foreign_of mid hgmid
  -- the run, state by state
  have ht0 : Tidy (catalog items).length (Correlator.init items) :=
    ⟨fun en hen => by simp [Correlator.init] at hen, rfl⟩
  obtain ⟨ht1, hs1⟩ := quiet_run soup beyond pa _ ht0 hqa
  have ht2 : Tidy (catalog items).length
      (Correlator.insert (Correlator.run soup beyond (Correlator.init items) pa) job mi) :=
    insert_tidy ht1 haddr
  have hl2 : (Correlator.insert (Correlator.run soup beyond (Correlator.init items) pa)
      job mi).jobsInProgress.lookup mi = some mi := by
    simp [Correlator.insert, List.lookup_cons, haddr]
  obtain ⟨ht3, hs3⟩ := quiet_run soup beyond pb _ ht2 hqb
  obtain ⟨v, hv⟩ : ∃ v, (catalog items)[mi]? = some v :=
    ⟨_, List.getElem?_eq_getElem hlt⟩
  refine ⟨v, hv, ?_⟩
  -- name the state before the first result
  generalize hst3 : Correlator.run soup beyond
    (Correlator.insert (Correlator.run soup beyond (Correlator.init items) pa) job mi) pb
    = st3 at ht3 hs3
  have hv3 : st3.vendorItems[mi]? = some v := by
    rw [hs3.1]
    have : (Correlator.insert (Correlator.run soup beyond (Correlator.init items) pa)
        job mi).vendorItems = (Correlator.run soup beyond (Correlator.init items) pa).vendorItems :=
      rfl
    rw [this, hs1.1]
    exact hv
  have hw3 : st3.written.count mi = 0 := by
    rw [hs3.2.1]
    have : (Correlator.insert (Correlator.run soup beyond (Correlator.init items) pa)
        job mi).written = (Correlator.run soup beyond (Correlator.init items) pa).written :=
      rfl
    rw [this, hs1.2.1]
    rfl
  have hl3 : st3.jobsInProgress.lookup job.addr = some mi := by
    rw [haddr, hs3.2.2, hl2]
  have h4 := step_first soup beyond st3 job mi e hl3
  have ht4 := step_tidy soup beyond { Job := job, HTML := [], Err := some e } ht3
  rw [h4] at ht4
  have hl4 : (st3.jobsInProgress.filter (fun entry => entry.1 != job.addr)).lookup mi = none := by
    rw [haddr]; exact lookup_filter_self _ _
  obtain ⟨ht5, hs5⟩ := foreign_run soup beyond mid _ ht4 hl4 hfm
  generalize hst5 : Correlator.run soup beyond
    { jobsInProgress := st3.jobsInProgress.filter (fun entry => entry.1 != job.addr)
      vendorItems := setAmounts st3.vendorItems mi (-1) (-1)
      written := st3.written ++ [mi] } mid = st5 at ht5 hs5
  have hl5 : st5.jobsInProgress.lookup job.addr = none := by
    rw [haddr, hs5.2.2]; exact hl4
  have horphan : ∀ r : BrowserJobResult, r.Job.addr = job.addr →
      Correlator.step soup beyond st5 r = st5 :=
    fun r hr => step_orphan soup beyond st5 r (by rw [hr]; exact hl5)
  have hmid : LookupVendorPrices.after soup beyond items
      ((pa ++ Event.insert job mi :: pb) ++
        (Event.result { Job := job, HTML := [], Err := some e } :: mid)) = st5 := by
    unfold LookupVendorPrices.after
    rw [run_append, run_append, run_cons, run_cons]
    simp only [Correlator.apply]
    rw [hst3, h4, hst5]
  have hfull : LookupVendorPrices.after soup beyond items
      ((pa ++ Event.insert job mi :: pb) ++
        (Event.result { Job := job, HTML := [], Err := some e } ::
          (mid ++ [Event.result { Job := job, HTML := html, Err := none }]))) = st5 := by
    unfold LookupVendorPrices.after
    rw [run_append, run_append, run_cons, run_cons, run_append]
    simp only [Correlator.apply]
    rw [hst3, h4, hst5, run_cons]
    simp only [Correlator.apply]
    rw [horphan _ rfl]
    rfl
  rw [hfull, hmid]
  refine ⟨?_, hl5, ?_, rfl, horphan⟩
  · rw [hs5.1]
    exact setAmounts_self hv3 _ _
  · rw [hs5.2.1]
    simp [List.count_append, hw3]

/-- Witness of C18: a catalog of one item with two vendors; both jobs are
inserted, the render of the second fails, and the result of the first, a
Banggood page whose price text is `US$1,234.56`, arrives between the two
results of the second. -/
theorem failed_render_settled_witness :
    chromeBrowser.body ⟨1, "http://b/n".toList⟩ ⟨[], some "timeout"⟩ =
      [⟨⟨1, "http://b/n".toList⟩, [], some "timeout"⟩,
       ⟨⟨1, "http://b/n".toList⟩, [], none⟩] ∧
    ∃ v, (catalog [⟨"nut".toList, 4,
        [NewVendorItem ['A'] "http://a/n".toList, NewVendorItem ['B'] "http://b/n".toList]⟩])[1]?
        = some v ∧
      (LookupVendorPrices.after (fun _ => ⟨some "US$1,234.56".toList, none⟩)
        (fun _ _ => ⟨0, 0, none⟩)
        [⟨"nut".toList, 4,
          [NewVendorItem ['A'] "http://a/n".toList, NewVendorItem ['B'] "http://b/n".toList]⟩]
        ([Event.insert ⟨0, "http://a/n".toList⟩ 0, Event.insert ⟨1, "http://b/n".toList⟩ 1] ++
          (Event.result ⟨⟨1, "http://b/n".toList⟩, [], some "timeout"⟩ ::
            ([Event.result ⟨⟨0, "http://a/n".toList⟩, "https://www.banggood.com".toList, none⟩] ++
              [Event.result ⟨⟨1, "http://b/n".toList⟩, [], none⟩])))).vendorItems[1]?
        = some { v with Price := -1, Shipping := -1 } ∧
      (LookupVendorPrices.after (fun _ => ⟨some "US$1,234.56".toList, none⟩)
        (fun _ _ => ⟨0, 0, none⟩)
        [⟨"nut".toList, 4,
          [NewVendorItem ['A'] "http://a/n".toList, NewVendorItem ['B'] "http://b/n".toList]⟩]
        ([Event.insert ⟨0, "http://a/n".toList⟩ 0, Event.insert ⟨1, "http://b/n".toList⟩ 1] ++
          (Event.result ⟨⟨1, "http://b/n".toList⟩, [], some "timeout"⟩ ::
            ([Event.result ⟨⟨0, "http://a/n".toList⟩, "https://www.banggood.com".toList, none⟩] ++
              [Event.result ⟨⟨1, "http://b/n".toList⟩, [], none⟩])))).jobsInProgress.lookup
        (⟨1, "http://b/n".toList⟩ : BrowserJob).addr = none ∧
      (LookupVendorPrices.after (fun _ => ⟨some "US$1,234.56".toList, none⟩)
        (fun _ _ => ⟨0, 0, none⟩)
        [⟨"nut".toList, 4,
          [NewVendorItem ['A'] "http://a/n".toList, NewVendorItem ['B'] "http://b/n".toList]⟩]
        ([Event.insert ⟨0, "http://a/n".toList⟩ 0, Event.insert ⟨1, "http://b/n".toList⟩ 1] ++
          (Event.result ⟨⟨1, "http://b/n".toList⟩, [], some "timeout"⟩ ::
            ([Event.result ⟨⟨0, "http://a/n".toList⟩, "https://www.banggood.com".toList, none⟩] ++
              [Event.result ⟨⟨1, "http://b/n".toList⟩, [], none⟩])))).written.count 1
        = 1 ∧
      LookupVendorPrices.after (fun _ => ⟨some "US$1,234.56".toList, none⟩)
        (fun _ _ => ⟨0, 0, none⟩)
        [⟨"nut".toList, 4,
          [NewVendorItem ['A'] "http://a/n".toList, NewVendorItem ['B'] "http://b/n".toList]⟩]
        ([Event.insert ⟨0, "http://a/n".toList⟩ 0, Event.insert ⟨1, "http://b/n".toList⟩ 1] ++
          (Event.result ⟨⟨1, "http://b/n".toList⟩, [], some "timeout"⟩ ::
            ([Event.result ⟨⟨0, "http://a/n".toList⟩, "https://www.banggood.com".toList, none⟩] ++
              [Event.result ⟨⟨1, "http://b/n".toList⟩, [], none⟩]))) =
        LookupVendorPrices.after (fun _ => ⟨some "US$1,234.56".toList, none⟩)
          (fun _ _ => ⟨0, 0, none⟩)
          [⟨"nut".toList, 4,
            [NewVendorItem ['A'] "http://a/n".toList, NewVendorItem ['B'] "http://b/n".toList]⟩]
          ([Event.insert ⟨0, "http://a/n".toList⟩ 0, Event.insert ⟨1, "http://b/n".toList⟩ 1] ++
            (Event.result ⟨⟨1, "http://b/n".toList⟩, [], some "timeout"⟩ ::
              [Event.result ⟨⟨0, "http://a/n".toList⟩, "https://www.banggood.com".toList, none⟩])) ∧
      ∀ r : BrowserJobResult, r.Job.addr = (⟨1, "http://b/n".toList⟩ : BrowserJob).addr →
        Correlator.step (fun _ => ⟨some "US$1,234.56".toList, none⟩) (fun _ _ => ⟨0, 0, none⟩)
          (LookupVendorPrices.after (fun _ => ⟨some "US$1,234.56".toList, none⟩)
            (fun _ _ => ⟨0, 0, none⟩)
            [⟨"nut".toList, 4,
              [NewVendorItem ['A'] "http://a/n".toList,
                NewVendorItem ['B'] "http://b/n".toList]⟩]
            ([Event.insert ⟨0, "http://a/n".toList⟩ 0,
                Event.insert ⟨1, "http://b/n".toList⟩ 1] ++
              (Event.result ⟨⟨1, "http://b/n".toList⟩, [], some "timeout"⟩ ::
                ([Event.result ⟨⟨0, "http://a/n".toList⟩, "https://www.banggood.com".toList, none⟩] ++
                  [Event.result ⟨⟨1, "http://b/n".toList⟩, [], none⟩])))) r =
        LookupVendorPrices.after (fun _ => ⟨some "US$1,234.56".toList, none⟩)
          (fun _ _ => ⟨0, 0, none⟩)
          [⟨"nut".toList, 4,
            [NewVendorItem ['A'] "http://a/n".toList, NewVendorItem ['B'] "http://b/n".toList]⟩]
          ([Event.insert ⟨0, "http://a/n".toList⟩ 0, Event.insert ⟨1, "http://b/n".toList⟩ 1] ++
            (Event.result ⟨⟨1, "http://b/n".toList⟩, [], some "timeout"⟩ ::
              ([Event.result ⟨⟨0, "http://a/n".toList⟩, "https://www.banggood.com".toList, none⟩] ++
                [Event.result ⟨⟨1, "http://b/n".toList⟩, [], none⟩]))) :=
  failed_render_settled (fun _ => ⟨some "US$1,234.56".toList, none⟩) (fun _ _ => ⟨0, 0, none⟩)
    [⟨"nut".toList, 4,
      [NewVendorItem ['A'] "http://a/n".toList, NewVendorItem ['B'] "http://b/n".toList]⟩]
    [Event.insert ⟨0, "http://a/n".toList⟩ 0, Event.insert ⟨1, "http://b/n".toList⟩ 1]
    [Event.result ⟨⟨0, "http://a/n".toList⟩, "https://www.banggood.com".toList, none⟩]
    ⟨1, "http://b/n".toList⟩ 1 [] "timeout"
    (by decide) (by decide) (by decide)

/-- The run of the witness of C18, evaluated: both records end at price `-1`
and shipping `-1`, the first by the syntax error on `1,234.56`, and each was
written once. -/
theorem failed_render_run :
    LookupVendorPrices.after (fun _ => ⟨some "US$1,234.56".toList, none⟩)
        (fun _ _ => ⟨0, 0, none⟩)
        [⟨"nut".toList, 4,
          [NewVendorItem ['A'] "http://a/n".toList, NewVendorItem ['B'] "http://b/n".toList]⟩]
        [Event.insert ⟨0, "http://a/n".toList⟩ 0, Event.insert ⟨1, "http://b/n".toList⟩ 1,
          Event.result ⟨⟨1, "http://b/n".toList⟩, [], some "timeout"⟩,
          Event.result ⟨⟨0, "http://a/n".toList⟩, "https://www.banggood.com".toList, none⟩,
          Event.result ⟨⟨1, "http://b/n".toList⟩, [], none⟩] =
      { jobsInProgress := []
        vendorItems := [⟨['A'], "http://a/n".toList, -1, -1⟩, ⟨['B'], "http://b/n".toList, -1, -1⟩]
        written := [1, 0] } := by
  decide!

end Pricer
